import Mathlib

/-!
Verification of the Cube-o-timer core: timing state machine (timingEngine),
rolling statistics engine (statsEngine) and split/phase tracker (splits).

Modelling conventions (shallow embedding of the TypeScript source):
* JS numbers (timestamps, durations in milliseconds) are modelled as `ℚ`;
  a nullable number is `Option ℚ` with `none` for `null`.
* The injectable clock (`timeSource.now()`) is passed to each transition as an
  explicit argument `now : ℚ`.
* `Array.prototype.sort` with a numeric comparator is a stable sort; it is
  modelled by `List.insertionSort`, which is stable for total preorders.
* `createdAt` ISO-8601 strings (compared with `localeCompare`) are modelled by
  an order-preserving numeric key `ℕ`.
* A JS `Map` built from a pair list (later bindings overwrite earlier ones) is
  modelled by a left fold (`mapGet`); a JS record written to in a loop is
  modelled the same way (`recGet`).
-/

/- ------------------------------------------------------------------ -/
/- types.ts                                                            -/
/- ------------------------------------------------------------------ -/

inductive Penalty
  | None
  | Plus2
  | DNF
deriving DecidableEq

inductive TimingState
  | idle
  | inspection
  | running
  | stopped
deriving DecidableEq

structure TimingResult where
  startTs : ℚ
  endTs : ℚ
  inspectionDurationMs : ℚ
  rawDurationMs : ℚ
  penalty : Penalty
  finalDurationMs : Option ℚ
deriving DecidableEq

/- ------------------------------------------------------------------ -/
/- timingEngine.ts                                                     -/
/- ------------------------------------------------------------------ -/

/-- `enableInspectionPenalties` is optional in the source and tested with a
truthiness check, so an absent field behaves as `false`. -/
structure TimingEngineConfig where
  inspectionDurationMs : ℚ
  enableInspectionPenalties : Bool := false
deriving DecidableEq

structure TimingEngineState where
  status : TimingState
  config : TimingEngineConfig
  inspectionStartTs : Option ℚ := none
  runStartTs : Option ℚ := none
  runEndTs : Option ℚ := none
  inspectionElapsedMs : ℚ
  inspectionPenalty : Penalty
  manualPenalty : Penalty
  result : Option TimingResult := none
deriving DecidableEq

def createTimingEngineState (config : TimingEngineConfig) : TimingEngineState :=
  { status := .idle
    config := config
    inspectionElapsedMs := 0
    inspectionPenalty := .None
    manualPenalty := .None }

/-- The source is variadic (`...penalties`); it is modelled on a list. -/
def combinePenalties (penalties : List Penalty) : Penalty :=
  if penalties.any (fun p => p == Penalty.DNF) then .DNF
  else if penalties.any (fun p => p == Penalty.Plus2) then .Plus2
  else .None

def applyPenaltyToDuration (baseMs : ℚ) (penalty : Penalty) : Option ℚ :=
  if penalty = .DNF then none
  else if penalty = .Plus2 then some (baseMs + 2000)
  else some baseMs

def computeInspectionPenalty (inspectionElapsedMs : ℚ)
    (config : TimingEngineConfig) : Penalty :=
  if !config.enableInspectionPenalties then .None
  else
    let limit := config.inspectionDurationMs
    if limit ≤ 0 then .None
    else if inspectionElapsedMs ≤ limit then .None
    else if inspectionElapsedMs ≤ limit + 2000 then .Plus2
    else .DNF

def startOrInspect (now : ℚ) (state : TimingEngineState) : TimingEngineState :=
  let inspectionDurationMs := state.config.inspectionDurationMs
  if inspectionDurationMs > 0 then
    { state with
      status := .inspection
      inspectionStartTs := some now
      inspectionElapsedMs := 0
      inspectionPenalty := .None
      manualPenalty := .None
      runStartTs := none
      runEndTs := none
      result := none }
  else
    { state with
      status := .running
      inspectionStartTs := none
      inspectionElapsedMs := 0
      inspectionPenalty := .None
      manualPenalty := .None
      runStartTs := some now
      runEndTs := none
      result := none }

def startRunningFromInspection (now : ℚ)
    (state : TimingEngineState) : TimingEngineState :=
  match state.status, state.inspectionStartTs with
  | .inspection, some inspectionStartTs =>
    let inspectionElapsedMs := now - inspectionStartTs
    let inspectionPenalty :=
      computeInspectionPenalty inspectionElapsedMs state.config
    { state with
      status := .running
      inspectionElapsedMs := inspectionElapsedMs
      inspectionPenalty := inspectionPenalty
      runStartTs := some now
      runEndTs := none
      result := none }
  | _, _ => state

def stopSolve (now : ℚ) (state : TimingEngineState) : TimingEngineState :=
  match state.status, state.runStartTs with
  | .running, some runStartTs =>
    let rawDurationMs := now - runStartTs
    let combinedPenalty :=
      combinePenalties [state.inspectionPenalty, state.manualPenalty]
    let finalDurationMs := applyPenaltyToDuration rawDurationMs combinedPenalty
    let timingResult : TimingResult :=
      { startTs := runStartTs
        endTs := now
        inspectionDurationMs := state.inspectionElapsedMs
        rawDurationMs := rawDurationMs
        penalty := combinedPenalty
        finalDurationMs := finalDurationMs }
    { state with
      status := .stopped
      runEndTs := some now
      result := some timingResult }
  | _, _ => state

/-- The source also guards on `result.rawDurationMs != null`, which is vacuous
because `rawDurationMs` has the non-nullable type `DurationMs`. -/
def applyManualPenalty (state : TimingEngineState)
    (penalty : Penalty) : TimingEngineState :=
  let manualPenalty := penalty
  let combinedPenalty :=
    combinePenalties [state.inspectionPenalty, manualPenalty]
  match state.result with
  | some result =>
    let finalDurationMs :=
      applyPenaltyToDuration result.rawDurationMs combinedPenalty
    { state with
      manualPenalty := manualPenalty
      result := some { result with
        penalty := combinedPenalty
        finalDurationMs := finalDurationMs } }
  | none => { state with manualPenalty := manualPenalty }

def handleSpacebar (now : ℚ) (state : TimingEngineState) : TimingEngineState :=
  match state.status with
  | .idle => startOrInspect now state
  | .stopped => startOrInspect now state
  | .inspection => startRunningFromInspection now state
  | .running => stopSolve now state

/- ------------------------------------------------------------------ -/
/- statsEngine.ts types                                                -/
/- ------------------------------------------------------------------ -/

inductive Mode
  | mo3
  | trimmed
deriving DecidableEq

structure StatWindowResult where
  size : ℕ
  valueMs : Option ℚ
  indices : List ℕ
  isDnf : Bool
deriving DecidableEq

structure WindowComputation where
  result : StatWindowResult
  contributingIndices : List ℕ
deriving DecidableEq

/-- The statistics engine only reads `id`, `createdAt` and `timing` from a
solve record; scramble metadata is omitted. -/
structure Solve where
  id : String
  createdAt : ℕ
  timing : TimingResult
deriving DecidableEq

structure TimelinePoint where
  solveId : String
  index : ℕ
  finalDurationMs : Option ℚ
  penalty : Penalty
  createdAt : ℕ
deriving DecidableEq

/-- The source represents the category as a string union; it is a closed
five-variant enumeration. -/
inductive PBType
  | single
  | mo3
  | ao5
  | ao12
  | custom
deriving DecidableEq

structure PersonalBest where
  type : PBType
  size : Option ℕ
  valueMs : ℚ
  solveIds : List String
  achievedAt : ℕ
deriving DecidableEq

structure RollingStats where
  count : ℕ
  bestMs : Option ℚ
  worstMs : Option ℚ
  meanMs : Option ℚ
  mo3 : Option StatWindowResult
  ao5 : Option StatWindowResult
  ao12 : Option StatWindowResult
  ao50 : Option StatWindowResult
  ao100 : Option StatWindowResult
  ao1000 : Option StatWindowResult
  moXAo5 : Option (ℕ × Option StatWindowResult)
deriving DecidableEq

structure StatsOptions where
  moXAo5 : Option ℕ := none
deriving DecidableEq

structure SessionStatsResult where
  rolling : RollingStats
  timeline : List TimelinePoint
  personalBests : List PersonalBest
deriving DecidableEq

/- ------------------------------------------------------------------ -/
/- statsEngine.ts functions                                            -/
/- ------------------------------------------------------------------ -/

def sortSolvesChronologically (solves : List Solve) : List Solve :=
  List.insertionSort (fun a b => a.createdAt ≤ b.createdAt) solves

def extractDurations (solves : List Solve) : List (Option ℚ) :=
  solves.map (fun s => s.timing.finalDurationMs)

def average (values : List ℚ) : ℚ :=
  values.sum / (values.length : ℚ)

def computeMeanOf3Window (durations : List (Option ℚ))
    (start : ℕ) : WindowComputation :=
  let slice := (durations.drop start).take 3
  let indices := [start, start + 1, start + 2]
  let hasDnf := slice.any (fun v => v.isNone)
  let valueMs :=
    if hasDnf then none else some (average (slice.map (fun v => v.getD 0)))
  { result := { size := 3, valueMs := valueMs, indices := indices, isDnf := hasDnf }
    contributingIndices := if hasDnf then [] else indices }

/-- Comparator key used by `computeTrimmedAverageWindow`: `null` (a DNF) is
replaced by positive infinity for comparison, modelled by `none` as a top
element. -/
def entryLeB (a b : Option ℚ) : Bool :=
  match a, b with
  | _, none => true
  | none, some _ => false
  | some x, some y => decide (x ≤ y)

def entryLe (a b : Option ℚ × ℕ) : Prop :=
  entryLeB a.1 b.1 = true

instance : DecidableRel entryLe := fun a b => by
  unfold entryLe
  exact instDecidableEqBool _ _

instance : IsTotal (Option ℚ × ℕ) entryLe := by
  constructor
  intro a b
  rcases a with ⟨_ | x, i⟩ <;> rcases b with ⟨_ | y, j⟩ <;>
    simp [entryLe, entryLeB]
  exact le_total x y

instance : IsTrans (Option ℚ × ℕ) entryLe := by
  constructor
  intro a b c hab hbc
  rcases a with ⟨_ | x, i⟩ <;> rcases b with ⟨_ | y, j⟩ <;>
    rcases c with ⟨_ | z, k⟩ <;>
    simp_all [entryLe, entryLeB]
  exact le_trans hab hbc

def computeTrimmedAverageWindow (durations : List (Option ℚ))
    (start size : ℕ) : WindowComputation :=
  let window := ((durations.drop start).take size).enum.map
    (fun p => (p.2, start + p.1))
  let sorted := List.insertionSort entryLe window
  let contributing := (sorted.drop 1).dropLast
  let hasDnf := contributing.any (fun c => c.1.isNone)
  let valueMs :=
    if hasDnf then none
    else some (average (contributing.map (fun c => c.1.getD 0)))
  { result :=
      { size := size
        valueMs := valueMs
        indices := contributing.map (fun c => c.2)
        isDnf := hasDnf }
    contributingIndices := contributing.map (fun c => c.2) }

def computeWindowAt (durations : List (Option ℚ)) (start : ℕ)
    (mode : Mode) (size : ℕ) : WindowComputation :=
  match mode with
  | .mo3 => computeMeanOf3Window durations start
  | .trimmed => computeTrimmedAverageWindow durations start size

def latestWindow (durations : List (Option ℚ)) (mode : Mode)
    (size : ℕ) : Option StatWindowResult :=
  if durations.length < size then none
  else some (computeWindowAt durations (durations.length - size) mode size).result

/-- One iteration of the scan inside `bestWindow`: skip an invalid window,
otherwise keep the strictly smaller of the incumbent and the new window. -/
def bestWindowStep (durations : List (Option ℚ)) (mode : Mode) (size : ℕ)
    (best : Option WindowComputation) (start : ℕ) : Option WindowComputation :=
  match (computeWindowAt durations start mode size).result.valueMs, best with
  | none, _ => best
  | some _, none => some (computeWindowAt durations start mode size)
  | some v, some b =>
    match b.result.valueMs with
    | some bv => if bv > v then some (computeWindowAt durations start mode size) else best
    | none => best

def bestWindow (durations : List (Option ℚ)) (mode : Mode)
    (size : ℕ) : Option WindowComputation :=
  if durations.length < size then none
  else
    (List.range (durations.length - size + 1)).foldl
      (bestWindowStep durations mode size) none

def computeAo5Series (durations : List (Option ℚ)) : List StatWindowResult :=
  if durations.length < 5 then []
  else (List.range (durations.length - 5 + 1)).map
    (fun start => (computeTrimmedAverageWindow durations start 5).result)

def computeMoXAo5 (ao5Series : List StatWindowResult)
    (x : ℕ) : Option StatWindowResult :=
  if ao5Series.length < x ∨ x = 0 then none
  else
    let start := ao5Series.length - x
    let slice := (ao5Series.drop start).take x
    let hasDnf := slice.any (fun r => r.valueMs.isNone)
    if hasDnf then
      some { size := x
             valueMs := none
             indices := (slice.map (fun r => r.indices)).flatten
             isDnf := true }
    else
      some { size := x
             valueMs := some (average (slice.map (fun r => r.valueMs.getD 0)))
             indices := (slice.map (fun r => r.indices)).flatten
             isDnf := false }

def buildTimeline (solves : List Solve) : List TimelinePoint :=
  solves.enum.map (fun p =>
    { solveId := p.2.id
      index := p.1
      finalDurationMs := p.2.timing.finalDurationMs
      penalty := p.2.timing.penalty
      createdAt := p.2.createdAt })

/-- Models `Math.min(...values)` guarded by a nonempty check. -/
def listMin : List ℚ → Option ℚ
  | [] => none
  | x :: xs =>
    match listMin xs with
    | none => some x
    | some m => some (min x m)

/-- Models `Math.max(...values)` guarded by a nonempty check. -/
def listMax : List ℚ → Option ℚ
  | [] => none
  | x :: xs =>
    match listMax xs with
    | none => some x
    | some m => some (max x m)

/-- Models `list[list.indexOf(target)] = next` (replace the first occurrence). -/
def setFirstEq : List PersonalBest → PersonalBest → PersonalBest → List PersonalBest
  | [], _, _ => []
  | pb :: rest, target, next =>
    if pb = target then next :: rest else pb :: setFirstEq rest target next

def addPbIfBetter (list : List PersonalBest) (type : PBType) (size : Option ℕ)
    (valueMs : ℚ) (solveIds : List String) (achievedAt : ℕ) : List PersonalBest :=
  match list.find? (fun pb => pb.type == type && (size == none || pb.size == size)) with
  | none =>
    list ++ [{ type := type, size := size, valueMs := valueMs
               solveIds := solveIds, achievedAt := achievedAt }]
  | some existing =>
    if existing.valueMs > valueMs then
      setFirstEq list existing
        { type := type, size := size, valueMs := valueMs
          solveIds := solveIds, achievedAt := achievedAt }
    else list

/-- The single-PB block of `computeSessionStats`. -/
def pbSingleStep (pbs : List PersonalBest) (solves : List Solve)
    (durations : List (Option ℚ)) (bestMs : Option ℚ) : List PersonalBest :=
  match bestMs with
  | none => pbs
  | some b =>
    match solves.get? (durations.findIdx (fun d => d == some b)) with
    | none => pbs
    | some solve => addPbIfBetter pbs .single none b [solve.id] solve.createdAt

/-- The windowed-PB block of `computeSessionStats`, repeated in the source for
mo3 / ao5 / ao12 with only the window kind, size and category varying. -/
def pbWindowStep (pbs : List PersonalBest) (solves : List Solve)
    (best : Option WindowComputation) (type : PBType) (size : ℕ) : List PersonalBest :=
  match best with
  | none => pbs
  | some comp =>
    match comp.result.valueMs with
    | none => pbs
    | some v =>
      match comp.contributingIndices.getLast? with
      | none => pbs
      | some lastIndex =>
        match solves.get? lastIndex with
        | none => pbs
        | some lastSolve =>
          addPbIfBetter pbs type (some size) v
            (comp.contributingIndices.filterMap
              (fun i => (solves.get? i).map (fun s => s.id)))
            lastSolve.createdAt

/-- The custom (MoXAo5) PB block of `computeSessionStats`. -/
def pbCustomStep (pbs : List PersonalBest) (solves : List Solve)
    (options : StatsOptions) (moXAo5Result : Option StatWindowResult) : List PersonalBest :=
  match options.moXAo5 with
  | none => pbs
  | some x =>
    if x = 0 then pbs
    else
      match moXAo5Result with
      | none => pbs
      | some r =>
        match r.valueMs with
        | none => pbs
        | some v =>
          match r.indices.getLast? with
          | none => pbs
          | some lastIndex =>
            match solves.get? lastIndex with
            | none => pbs
            | some lastSolve =>
              addPbIfBetter pbs .custom (some x) v
                (r.indices.filterMap (fun i => (solves.get? i).map (fun s => s.id)))
                lastSolve.createdAt

def computePersonalBests (solves : List Solve) (durations : List (Option ℚ))
    (options : StatsOptions) (bestMs : Option ℚ)
    (moXAo5Result : Option StatWindowResult) : List PersonalBest :=
  let pbs1 := pbSingleStep [] solves durations bestMs
  let pbs2 := pbWindowStep pbs1 solves (bestWindow durations .mo3 3) .mo3 3
  let pbs3 := pbWindowStep pbs2 solves (bestWindow durations .trimmed 5) .ao5 5
  let pbs4 := pbWindowStep pbs3 solves (bestWindow durations .trimmed 12) .ao12 12
  pbCustomStep pbs4 solves options moXAo5Result

/-- Body of `computeSessionStats` after the initial chronological re-sort. -/
def statsOnSorted (solves : List Solve) (options : StatsOptions) : SessionStatsResult :=
  let durations := extractDurations solves
  let timeline := buildTimeline solves
  let validDurations := durations.filterMap id
  let bestMs := listMin validDurations
  let worstMs := listMax validDurations
  let meanMs :=
    if validDurations.length = 0 then none else some (average validDurations)
  let ao5Series := computeAo5Series durations
  let moXAo5Result :=
    match options.moXAo5 with
    | some x => if 0 < x then computeMoXAo5 ao5Series x else none
    | none => none
  let rolling : RollingStats :=
    { count := durations.length
      bestMs := bestMs
      worstMs := worstMs
      meanMs := meanMs
      mo3 := latestWindow durations .mo3 3
      ao5 := latestWindow durations .trimmed 5
      ao12 := latestWindow durations .trimmed 12
      ao50 := latestWindow durations .trimmed 50
      ao100 := latestWindow durations .trimmed 100
      ao1000 := latestWindow durations .trimmed 1000
      moXAo5 :=
        match options.moXAo5 with
        | some x => if x = 0 then none else some (x, moXAo5Result)
        | none => none }
  { rolling := rolling
    timeline := timeline
    personalBests := computePersonalBests solves durations options bestMs moXAo5Result }

def computeSessionStats (solvesInput : List Solve)
    (options : StatsOptions) : SessionStatsResult :=
  statsOnSorted (sortSolvesChronologically solvesInput) options

/- ------------------------------------------------------------------ -/
/- splits.ts                                                           -/
/- ------------------------------------------------------------------ -/

structure SplitPhaseDefinition where
  name : String
  order : ℤ
deriving DecidableEq

structure SplitInstance where
  phase : String
  timestampMs : ℚ
deriving DecidableEq

structure SplitCapture where
  solveId : String
  phases : List SplitInstance
deriving DecidableEq

/-- JS `Map` lookup for a map built from a pair list: a later binding for the
same key overwrites an earlier one. -/
def mapGet {β : Type} (pairs : List (String × β)) (key : String) : Option β :=
  pairs.foldl (fun acc p => if p.1 = key then some p.2 else acc) none

/-- The indexed loop inside `computePhaseDurations`: each instance is paired
with the timestamp of the next instance, the last one with the optional end
timestamp. -/
def phaseLoop (endTimestampMs : Option ℚ) :
    List SplitInstance → List (String × Option ℚ)
  | [] => []
  | current :: rest =>
    let endTs :=
      match rest with
      | next :: _ => some next.timestampMs
      | [] => endTimestampMs
    (current.phase,
      match endTs with
      | some e =>
        if current.timestampMs ≤ e then some (e - current.timestampMs) else none
      | none => none) :: phaseLoop endTimestampMs rest

def computePhaseDurations (definitions : List SplitPhaseDefinition)
    (capture : SplitCapture) (endTimestampMs : Option ℚ) :
    List (String × Option ℚ) :=
  let sortedDefs := List.insertionSort
    (fun a b => a.order ≤ b.order) definitions
  let order : List (String × ℕ) := sortedDefs.enum.map (fun p => (p.2.name, p.1))
  let sortedInstances := List.insertionSort
    (fun a b => (mapGet order a.phase).getD 0 ≤ (mapGet order b.phase).getD 0)
    capture.phases
  phaseLoop endTimestampMs sortedInstances

/-- JS record written to in insertion order; a later write to the same key
overwrites an earlier one, a missing key reads as `undefined`. -/
def recGet (entries : List (String × Option ℚ)) (key : String) : Option (Option ℚ) :=
  mapGet entries key

/-- Reading a duration out of the record: both a missing key (`undefined`) and
a stored `null` denote the absence of a duration. -/
def flatGet (entries : List (String × Option ℚ)) (key : String) : Option ℚ :=
  (recGet entries key).bind id

/- ------------------------------------------------------------------ -/
/- Helper lemmas                                                       -/
/- ------------------------------------------------------------------ -/

/-- Severity rank of a penalty; used to state the dominance ordering
`DNF > Plus2 > None` from the spec. -/
def severity : Penalty → ℕ
  | .None => 0
  | .Plus2 => 1
  | .DNF => 2

/- ------------------------------------------------------------------ -/
/- Claims                                                              -/
/- ------------------------------------------------------------------ -/

/-- C1: whenever a solve is running (status `running` with a recorded run
start timestamp) and the clock reads `now`, the `TimingResult` produced by
`stopSolve` has `rawDurationMs = now - runStartTs`, its penalty is the
dominance-combination of the stored inspection penalty and the current manual
penalty, `finalDurationMs` is `null` iff that combined penalty is DNF, equals
`rawDurationMs + 2000` iff it is Plus2, and equals `rawDurationMs`
otherwise. -/
theorem stopSolve_final_duration (state : TimingEngineState) (now t : ℚ)
    (hstatus : state.status = .running) (hrun : state.runStartTs = some t) :
    ∃ r : TimingResult, (stopSolve now state).result = some r ∧
      r.rawDurationMs = now - t ∧
      r.penalty = combinePenalties [state.inspectionPenalty, state.manualPenalty] ∧
      (r.finalDurationMs = none ↔ r.penalty = .DNF) ∧
      (r.finalDurationMs = some (r.rawDurationMs + 2000) ↔ r.penalty = .Plus2) ∧
      (r.penalty ≠ .DNF → r.penalty ≠ .Plus2 →
        r.finalDurationMs = some r.rawDurationMs) := by
  rcases state with ⟨status, config, iTs, rTs, eTs, iel, ip, mp, res⟩
  simp only at hstatus hrun
  subst hstatus; subst hrun
  refine ⟨_, rfl, rfl, rfl, ?_, ?_, ?_⟩ <;>
    cases ip <;> cases mp <;>
      simp [stopSolve, combinePenalties, applyPenaltyToDuration,
        self_eq_add_right]

/-- C1 witness: a concrete running state stopped at clock reading 5000. -/
theorem stopSolve_final_duration_witness :
    (let s : TimingEngineState :=
      { status := .running
        config := { inspectionDurationMs := 15000, enableInspectionPenalties := true }
        runStartTs := some 1000
        inspectionElapsedMs := 0
        inspectionPenalty := .Plus2
        manualPenalty := .None }
    s.status = .running ∧ s.runStartTs = some 1000 ∧
      ∃ r : TimingResult, (stopSolve 5000 s).result = some r ∧
        r.rawDurationMs = 5000 - 1000 ∧
        r.penalty = combinePenalties [s.inspectionPenalty, s.manualPenalty] ∧
        (r.finalDurationMs = none ↔ r.penalty = .DNF) ∧
        (r.finalDurationMs = some (r.rawDurationMs + 2000) ↔ r.penalty = .Plus2) ∧
        (r.penalty ≠ .DNF → r.penalty ≠ .Plus2 →
          r.finalDurationMs = some r.rawDurationMs)) :=
  ⟨rfl, rfl, stopSolve_final_duration _ 5000 1000 rfl rfl⟩

/-- C4 counterexample: with the optional `enableInspectionPenalties` flag
absent (truthiness-tested, so it behaves as disabled), a configured limit of
15000 ms and elapsed 15001 ms yield `None`, not the `Plus2` the threshold rule
prescribes. -/
theorem inspection_penalty_disabled_counterexample :
    computeInspectionPenalty 15001 { inspectionDurationMs := 15000 } = .None ∧
    Penalty.None ≠ .Plus2 := by
  decide

/-- C4 amended: with inspection penalties enabled and a positive configured limit, the
penalty derived at the inspection-to-running transition is
`computeInspectionPenalty` of the elapsed inspection time, and that function
returns `None` for elapsed ≤ limit, `Plus2` for limit < elapsed ≤ limit + 2000
and `DNF` for elapsed > limit + 2000. -/
theorem inspection_penalty_thresholds (config : TimingEngineConfig)
    (henabled : config.enableInspectionPenalties = true)
    (hpos : 0 < config.inspectionDurationMs) :
    (∀ (state : TimingEngineState) (now t : ℚ), state.status = .inspection →
        state.inspectionStartTs = some t → state.config = config →
        (startRunningFromInspection now state).inspectionPenalty =
          computeInspectionPenalty (now - t) config) ∧
    (∀ e : ℚ, e ≤ config.inspectionDurationMs →
        computeInspectionPenalty e config = .None) ∧
    (∀ e : ℚ, config.inspectionDurationMs < e →
        e ≤ config.inspectionDurationMs + 2000 →
        computeInspectionPenalty e config = .Plus2) ∧
    (∀ e : ℚ, config.inspectionDurationMs + 2000 < e →
        computeInspectionPenalty e config = .DNF) := by
  refine ⟨?_, ?_, ?_, ?_⟩
  · intro state now t hstatus hts hcfg
    rcases state with ⟨status, cfg, iTs, rTs, eTs, iel, ip, mp, res⟩
    simp only at hstatus hts hcfg
    subst hstatus; subst hts; subst hcfg
    rfl
  · intro e he
    simp [computeInspectionPenalty, henabled, not_le.mpr hpos, he]
  · intro e he1 he2
    simp [computeInspectionPenalty, henabled, not_le.mpr hpos,
      not_le.mpr he1, he2]
  · intro e he
    have h1 : config.inspectionDurationMs < e := by linarith
    simp [computeInspectionPenalty, henabled, not_le.mpr hpos,
      not_le.mpr h1, not_le.mpr he]

/-- C4 witness: limit 15000 with penalties enabled, at elapsed readings
15000, 15001 and 17001. -/
theorem inspection_penalty_thresholds_witness :
    computeInspectionPenalty 15000
        { inspectionDurationMs := 15000, enableInspectionPenalties := true } = .None ∧
    computeInspectionPenalty 15001
        { inspectionDurationMs := 15000, enableInspectionPenalties := true } = .Plus2 ∧
    computeInspectionPenalty 17001
        { inspectionDurationMs := 15000, enableInspectionPenalties := true } = .DNF :=
  ⟨(inspection_penalty_thresholds _ rfl (by norm_num)).2.1 15000 (by norm_num),
   (inspection_penalty_thresholds _ rfl (by norm_num)).2.2.1 15001
     (by norm_num) (by norm_num),
   (inspection_penalty_thresholds _ rfl (by norm_num)).2.2.2 17001 (by norm_num)⟩

/-- C5: penalty combination is commutative and dominance-ordered
(`DNF > Plus2 > None`): combining with `DNF` yields `DNF`, `Plus2` with
`None` yields `Plus2`, the severity of the combination is the maximum of the
severities (so two `Plus2` combine to a single `Plus2`, never accumulating
numerically). -/
theorem combinePenalties_dominance :
    (∀ x, combinePenalties [.DNF, x] = .DNF) ∧
    (∀ x, combinePenalties [x, .DNF] = .DNF) ∧
    combinePenalties [.Plus2, .None] = .Plus2 ∧
    combinePenalties [.None, .Plus2] = .Plus2 ∧
    combinePenalties [.Plus2, .Plus2] = .Plus2 ∧
    (∀ x y, combinePenalties [x, y] = combinePenalties [y, x]) ∧
    (∀ x y, severity (combinePenalties [x, y]) = max (severity x) (severity y)) := by
  refine ⟨?_, ?_, rfl, rfl, rfl, ?_, ?_⟩
  · intro x; cases x <;> rfl
  · intro x; cases x <;> rfl
  · intro x y; cases x <;> cases y <;> rfl
  · intro x y; cases x <;> cases y <;> rfl

/-- C6 counterexample: `applyManualPenalty` invoked on a fresh idle state (no
stored result) does not leave the state unchanged — it records the manual
penalty. -/
theorem applyManualPenalty_not_noop :
    applyManualPenalty
        (createTimingEngineState
          { inspectionDurationMs := 15000, enableInspectionPenalties := true })
        .Plus2 ≠
      createTimingEngineState
        { inspectionDurationMs := 15000, enableInspectionPenalties := true } := by
  intro h
  have := congrArg TimingEngineState.manualPenalty h
  simp [applyManualPenalty, createTimingEngineState] at this

/-- C6 amended: `stopSolve` and `startRunningFromInspection` return the state
unchanged (and never throw) when their preconditions fail, while
`applyManualPenalty` invoked before any result exists updates exactly the
stored manual penalty, leaving every other field unchanged. -/
theorem transitions_on_invalid_preconditions :
    (∀ (now : ℚ) (s : TimingEngineState),
        ¬(s.status = .running ∧ s.runStartTs ≠ none) → stopSolve now s = s) ∧
    (∀ (now : ℚ) (s : TimingEngineState),
        ¬(s.status = .inspection ∧ s.inspectionStartTs ≠ none) →
          startRunningFromInspection now s = s) ∧
    (∀ (s : TimingEngineState) (p : Penalty),
        s.result = none → applyManualPenalty s p = { s with manualPenalty := p }) := by
  refine ⟨?_, ?_, ?_⟩
  · intro now s h
    unfold stopSolve
    split
    · rename_i heq hts
      exact absurd ⟨heq, by simp [hts]⟩ h
    · rfl
  · intro now s h
    unfold startRunningFromInspection
    split
    · rename_i heq hts
      exact absurd ⟨heq, by simp [hts]⟩ h
    · rfl
  · intro s p h
    unfold applyManualPenalty
    rw [h]

/-- C6 amended witness: stopping from idle, beginning a solve from idle, and
applying a manual penalty before any result exists, on a concrete state. -/
theorem transitions_on_invalid_preconditions_witness :
    (let s := createTimingEngineState
      { inspectionDurationMs := 15000, enableInspectionPenalties := true }
    ¬(s.status = .running ∧ s.runStartTs ≠ none) ∧
    ¬(s.status = .inspection ∧ s.inspectionStartTs ≠ none) ∧
    s.result = none ∧
    stopSolve 42 s = s ∧
    startRunningFromInspection 42 s = s ∧
    applyManualPenalty s .Plus2 = { s with manualPenalty := .Plus2 }) :=
  ⟨by decide, by decide, rfl,
   transitions_on_invalid_preconditions.1 42 _ (by decide),
   transitions_on_invalid_preconditions.2.1 42 _ (by decide),
   transitions_on_invalid_preconditions.2.2 _ .Plus2 rfl⟩

/-- C10: `computeSessionStats` re-sorts its input by `createdAt` before any
computation, so two inputs that are permutations of each other with pairwise
distinct `createdAt` keys produce equal outputs. -/
theorem computeSessionStats_perm_invariant (l1 l2 : List Solve)
    (options : StatsOptions) (hperm : l1.Perm l2)
    (hnodup : (l1.map (fun s => s.createdAt)).Nodup) :
    computeSessionStats l1 options = computeSessionStats l2 options := by
  suffices h : sortSolvesChronologically l1 = sortSolvesChronologically l2 by
    unfold computeSessionStats
    rw [h]
  unfold sortSolvesChronologically
  set r := fun a b : Solve => a.createdAt ≤ b.createdAt with hr
  haveI : IsTotal Solve r := ⟨fun a b => le_total a.createdAt b.createdAt⟩
  haveI : IsTrans Solve r := ⟨fun _ _ _ hab hbc => le_trans hab hbc⟩
  set rs := fun a b : Solve => a.createdAt < b.createdAt with hrs
  haveI : IsAntisymm Solve rs :=
    ⟨fun a b hab hba => absurd hab (not_lt.mpr (le_of_lt hba))⟩
  have hp : (List.insertionSort r l1).Perm (List.insertionSort r l2) :=
    (List.perm_insertionSort r l1).trans
      (hperm.trans (List.perm_insertionSort r l2).symm)
  have key : ∀ l : List Solve, l.Perm l1 →
      List.Sorted rs (List.insertionSort r l) := by
    intro l hl
    have hsorted : List.Sorted r (List.insertionSort r l) :=
      List.sorted_insertionSort r l
    have hnd : ((List.insertionSort r l).map (fun s => s.createdAt)).Nodup := by
      have : ((List.insertionSort r l).map (fun s => s.createdAt)).Perm
          (l1.map (fun s => s.createdAt)) :=
        ((List.perm_insertionSort r l).trans hl).map _
      exact this.nodup_iff.mpr hnodup
    have hne : (List.insertionSort r l).Pairwise
        (fun a b : Solve => a.createdAt ≠ b.createdAt) :=
      (List.pairwise_map).mp hnd
    exact (hsorted.and hne).imp (fun h => lt_of_le_of_ne h.1 h.2)
  exact List.eq_of_perm_of_sorted hp (key l1 (List.Perm.refl l1)) (key l2 hperm.symm)

/-- C10 witness: a concrete two-element permutation with distinct keys. -/
theorem computeSessionStats_perm_invariant_witness :
    (let s1 : Solve :=
      { id := "a", createdAt := 0
        timing := { startTs := 0, endTs := 500, inspectionDurationMs := 0
                    rawDurationMs := 500, penalty := .None
                    finalDurationMs := some 500 } }
    let s2 : Solve :=
      { id := "b", createdAt := 1
        timing := { startTs := 0, endTs := 700, inspectionDurationMs := 0
                    rawDurationMs := 700, penalty := .None
                    finalDurationMs := some 700 } }
    ([s1, s2].Perm [s2, s1] ∧ ([s1, s2].map (fun s => s.createdAt)).Nodup) ∧
      computeSessionStats [s1, s2] {} = computeSessionStats [s2, s1] {}) :=
  ⟨⟨List.Perm.swap _ _ _, by decide⟩,
   computeSessionStats_perm_invariant _ _ {} (List.Perm.swap _ _ _) (by decide)⟩

theorem listMin_isSome {l : List ℚ} (h : l ≠ []) : ∃ m, listMin l = some m := by
  cases l with
  | nil => exact absurd rfl h
  | cons x xs =>
    unfold listMin
    cases listMin xs with
    | none => exact ⟨x, rfl⟩
    | some m => exact ⟨min x m, rfl⟩

theorem listMin_mem {l : List ℚ} : ∀ {m : ℚ}, listMin l = some m → m ∈ l := by
  induction l with
  | nil => intro m h; simp [listMin] at h
  | cons x xs ih =>
    intro m h
    unfold listMin at h
    cases hx : listMin xs with
    | none =>
      rw [hx] at h
      simp at h
      simp [h]
    | some m2 =>
      rw [hx] at h
      simp only [Option.some.injEq] at h
      rcases min_cases x m2 with ⟨heq, _⟩ | ⟨heq, _⟩
      · rw [← h, heq]
        exact List.mem_cons_self _ _
      · rw [← h, heq]
        exact List.mem_cons_of_mem _ (ih hx)

theorem listMin_le {l : List ℚ} : ∀ {m : ℚ}, listMin l = some m →
    ∀ x ∈ l, m ≤ x := by
  induction l with
  | nil => intro m h; simp
  | cons x xs ih =>
    intro m h
    unfold listMin at h
    cases hx : listMin xs with
    | none =>
      rw [hx] at h
      simp at h
      have hnil : xs = [] := by
        cases xs with
        | nil => rfl
        | cons y ys =>
          rcases listMin_isSome (l := y :: ys) (by simp) with ⟨m0, hm0⟩
          rw [hm0] at hx
          exact absurd hx (by simp)
      subst hnil
      simp [h]
    | some m2 =>
      rw [hx] at h
      simp only [Option.some.injEq] at h
      intro y hy
      rcases List.mem_cons.mp hy with rfl | hy2
      · rw [← h]; exact min_le_left _ _
      · rw [← h]
        exact le_trans (min_le_right _ _) (ih hx y hy2)

theorem setFirstEq_mem {l : List PersonalBest} {target next pb : PersonalBest}
    (hmem : pb ∈ l) (hne : pb ≠ target) : pb ∈ setFirstEq l target next := by
  induction l with
  | nil => simp at hmem
  | cons a rest ih =>
    unfold setFirstEq
    rcases List.mem_cons.mp hmem with rfl | hrest
    · rw [if_neg hne]
      exact List.mem_cons_self _ _
    · by_cases ha : a = target
      · rw [if_pos ha]
        exact List.mem_cons_of_mem _ hrest
      · rw [if_neg ha]
        exact List.mem_cons_of_mem _ (ih hrest)

theorem mem_setFirstEq {l : List PersonalBest} {target next pb : PersonalBest}
    (h : pb ∈ setFirstEq l target next) : pb ∈ l ∨ pb = next := by
  induction l with
  | nil => simp [setFirstEq] at h
  | cons a rest ih =>
    unfold setFirstEq at h
    by_cases ha : a = target
    · rw [if_pos ha] at h
      rcases List.mem_cons.mp h with rfl | hrest
      · right; rfl
      · left; exact List.mem_cons_of_mem _ hrest
    · rw [if_neg ha] at h
      rcases List.mem_cons.mp h with rfl | hrest
      · left; exact List.mem_cons_self _ _
      · rcases ih hrest with h1 | h1
        · left; exact List.mem_cons_of_mem _ h1
        · right; exact h1

theorem mem_addPbIfBetter_of_type_ne {list : List PersonalBest} {type : PBType}
    {size : Option ℕ} {v : ℚ} {ids : List String} {ach : ℕ} {pb : PersonalBest}
    (hmem : pb ∈ list) (hne : pb.type ≠ type) :
    pb ∈ addPbIfBetter list type size v ids ach := by
  unfold addPbIfBetter
  split
  · exact List.mem_append_left _ hmem
  · rename_i existing hf
    have hex : existing.type = type := by
      have := List.find?_some hf
      simp only [Bool.and_eq_true, beq_iff_eq] at this
      exact this.1
    split
    · exact setFirstEq_mem hmem (fun hc => hne (hc ▸ hex))
    · exact hmem

theorem mem_addPbIfBetter {list : List PersonalBest} {type : PBType}
    {size : Option ℕ} {v : ℚ} {ids : List String} {ach : ℕ} {pb : PersonalBest}
    (h : pb ∈ addPbIfBetter list type size v ids ach) :
    pb ∈ list ∨ pb = { type := type, size := size, valueMs := v
                       solveIds := ids, achievedAt := ach } := by
  unfold addPbIfBetter at h
  split at h
  · rcases List.mem_append.mp h with h1 | h1
    · left; exact h1
    · right; simpa using h1
  · split at h
    · exact mem_setFirstEq h
    · left; exact h

theorem addPbIfBetter_of_fresh {list : List PersonalBest} {type : PBType}
    {size : Option ℕ} {v : ℚ} {ids : List String} {ach : ℕ}
    (h : ∀ pb ∈ list, pb.type ≠ type) :
    addPbIfBetter list type size v ids ach =
      list ++ [{ type := type, size := size, valueMs := v
                 solveIds := ids, achievedAt := ach }] := by
  unfold addPbIfBetter
  have hf : list.find? (fun pb => pb.type == type && (size == none || pb.size == size)) = none := by
    rw [List.find?_eq_none]
    intro x hx
    simp only [Bool.and_eq_true, beq_iff_eq, not_and]
    intro hc
    exact absurd hc (h x hx)
  rw [hf]

theorem mem_pbSingleStep_of_type_ne {pbs : List PersonalBest} {solves : List Solve}
    {durations : List (Option ℚ)} {bestMs : Option ℚ} {pb : PersonalBest}
    (hmem : pb ∈ pbs) (hne : pb.type ≠ .single) :
    pb ∈ pbSingleStep pbs solves durations bestMs := by
  unfold pbSingleStep
  split
  · exact hmem
  · split
    · exact hmem
    · exact mem_addPbIfBetter_of_type_ne hmem hne

theorem mem_pbWindowStep_of_type_ne {pbs : List PersonalBest} {solves : List Solve}
    {best : Option WindowComputation} {type : PBType} {size : ℕ} {pb : PersonalBest}
    (hmem : pb ∈ pbs) (hne : pb.type ≠ type) :
    pb ∈ pbWindowStep pbs solves best type size := by
  unfold pbWindowStep
  split
  · exact hmem
  · split
    · exact hmem
    · split
      · exact hmem
      · split
        · exact hmem
        · exact mem_addPbIfBetter_of_type_ne hmem hne

theorem mem_pbCustomStep_of_type_ne {pbs : List PersonalBest} {solves : List Solve}
    {options : StatsOptions} {moXAo5Result : Option StatWindowResult} {pb : PersonalBest}
    (hmem : pb ∈ pbs) (hne : pb.type ≠ .custom) :
    pb ∈ pbCustomStep pbs solves options moXAo5Result := by
  unfold pbCustomStep
  split
  · exact hmem
  · split
    · exact hmem
    · split
      · exact hmem
      · split
        · exact hmem
        · split
          · exact hmem
          · split
            · exact hmem
            · exact mem_addPbIfBetter_of_type_ne hmem hne

theorem mem_pbSingleStep {pbs : List PersonalBest} {solves : List Solve}
    {durations : List (Option ℚ)} {bestMs : Option ℚ} {pb : PersonalBest}
    (h : pb ∈ pbSingleStep pbs solves durations bestMs) :
    pb ∈ pbs ∨ pb.type = .single := by
  unfold pbSingleStep at h
  split at h
  · left; exact h
  · split at h
    · left; exact h
    · rcases mem_addPbIfBetter h with h1 | h1
      · left; exact h1
      · right; rw [h1]

theorem mem_pbWindowStep {pbs : List PersonalBest} {solves : List Solve}
    {best : Option WindowComputation} {type : PBType} {size : ℕ} {pb : PersonalBest}
    (h : pb ∈ pbWindowStep pbs solves best type size) :
    pb ∈ pbs ∨ pb.type = type := by
  unfold pbWindowStep at h
  split at h
  · left; exact h
  · split at h
    · left; exact h
    · split at h
      · left; exact h
      · split at h
        · left; exact h
        · rcases mem_addPbIfBetter h with h1 | h1
          · left; exact h1
          · right; rw [h1]

/-- C8: with at least one non-null final duration, the single personal best is
the minimum non-null `finalDurationMs` over the full (chronologically sorted)
history, attributed to exactly one contributing attempt — the earliest one
achieving that minimum (a later tie does not move the record). -/
theorem single_pb_strict_earliest (solvesInput : List Solve) (options : StatsOptions)
    (hsome : ∃ d ∈ extractDurations (sortSolvesChronologically solvesInput), d ≠ none) :
    ∃ (b : ℚ) (i : ℕ) (solve : Solve) (pb : PersonalBest),
      (computeSessionStats solvesInput options).rolling.bestMs = some b ∧
      (∀ q : ℚ, some q ∈ extractDurations (sortSolvesChronologically solvesInput) → b ≤ q) ∧
      (extractDurations (sortSolvesChronologically solvesInput)).get? i = some (some b) ∧
      (∀ j, j < i →
        (extractDurations (sortSolvesChronologically solvesInput)).get? j ≠ some (some b)) ∧
      (sortSolvesChronologically solvesInput).get? i = some solve ∧
      pb ∈ (computeSessionStats solvesInput options).personalBests ∧
      pb.type = .single ∧ pb.size = none ∧ pb.valueMs = b ∧
      pb.solveIds = [solve.id] ∧ pb.achievedAt = solve.createdAt := by
  set solves := sortSolvesChronologically solvesInput with hsolves
  set durations := extractDurations solves with hds
  obtain ⟨d, hdmem, hdne⟩ := hsome
  rcases d with _ | q
  · exact absurd rfl hdne
  have hq : q ∈ durations.filterMap id := List.mem_filterMap.mpr ⟨some q, hdmem, rfl⟩
  obtain ⟨b, hb⟩ := listMin_isSome (List.ne_nil_of_mem hq)
  have hble : ∀ x ∈ durations.filterMap id, b ≤ x := listMin_le hb
  have hbmem : b ∈ durations.filterMap id := listMin_mem hb
  obtain ⟨d0, hd0mem, hd0⟩ := List.mem_filterMap.mp hbmem
  have hd0eq : d0 = some b := hd0
  subst hd0eq
  set i := durations.findIdx (fun d => d == some b) with hi
  have hex : ∃ x ∈ durations, (fun d => d == some b) x = true :=
    ⟨some b, hd0mem, by simp⟩
  have hilt : i < durations.length := List.findIdx_lt_length_of_exists hex
  have hget : durations.get ⟨i, hilt⟩ = some b := by
    have h1 := List.findIdx_get (w := hilt)
    simpa using h1
  have higet : durations.get? i = some (some b) := by
    rw [List.get?_eq_get hilt, hget]
  have hmin : ∀ j, j < i → durations.get? j ≠ some (some b) := by
    intro j hj hcontra
    have hjlt : j < durations.length := lt_trans hj hilt
    have hfalse := @List.not_of_lt_findIdx _ (fun d => d == some b)
      durations j hj
    rw [List.get?_eq_get hjlt] at hcontra
    have heq2 : durations.get ⟨j, hjlt⟩ = some b := by
      injection hcontra
    rw [List.get_eq_getElem] at heq2
    rw [heq2] at hfalse
    simp at hfalse
  have hslen : solves.length = durations.length := by
    rw [hds]; simp [extractDurations]
  have hislt : i < solves.length := by rw [hslen]; exact hilt
  have hsget : solves.get? i = some (solves.get ⟨i, hislt⟩) := List.get?_eq_get hislt
  set solve := solves.get ⟨i, hislt⟩ with hsolve
  have hpbs1 : pbSingleStep [] solves durations (some b) =
      [{ type := .single, size := none, valueMs := b
         solveIds := [solve.id], achievedAt := solve.createdAt }] := by
    show (match solves.get? (durations.findIdx (fun d => d == some b)) with
          | none => ([] : List PersonalBest)
          | some solve =>
            addPbIfBetter [] .single none b [solve.id] solve.createdAt) = _
    rw [← hi, hsget]
    rfl
  have hmem1 : ({ type := .single, size := none, valueMs := b
                  solveIds := [solve.id], achievedAt := solve.createdAt } : PersonalBest) ∈
      pbSingleStep [] solves durations (some b) := by
    rw [hpbs1]; exact List.mem_cons_self _ _
  have hmem2 := @mem_pbWindowStep_of_type_ne _ solves
    (bestWindow durations .mo3 3) PBType.mo3 3 _ hmem1 (by simp)
  have hmem3 := @mem_pbWindowStep_of_type_ne _ solves
    (bestWindow durations .trimmed 5) PBType.ao5 5 _ hmem2 (by simp)
  have hmem4 := @mem_pbWindowStep_of_type_ne _ solves
    (bestWindow durations .trimmed 12) PBType.ao12 12 _ hmem3 (by simp)
  set moX : Option StatWindowResult :=
    (match options.moXAo5 with
     | some x => if 0 < x then computeMoXAo5 (computeAo5Series durations) x else none
     | none => none) with hmoX
  have hmem5 := @mem_pbCustomStep_of_type_ne _ solves options moX _ hmem4 (by simp)
  have hbestMs : (computeSessionStats solvesInput options).rolling.bestMs =
      listMin (durations.filterMap id) := rfl
  have hpbsEq : (computeSessionStats solvesInput options).personalBests =
      computePersonalBests solves durations options
        (listMin (durations.filterMap id)) moX := rfl
  refine ⟨b, i, solve,
    { type := .single, size := none, valueMs := b
      solveIds := [solve.id], achievedAt := solve.createdAt },
    hbestMs.trans hb, ?_, higet, hmin, hsget, ?_, rfl, rfl, rfl, rfl, rfl⟩
  · intro q2 hq2
    exact hble q2 (List.mem_filterMap.mpr ⟨some q2, hq2, rfl⟩)
  · rw [hpbsEq, hb]
    unfold computePersonalBests
    exact hmem5

/-- Builds a minimal solve record for concrete witnesses. -/
def mkSolve (i : String) (c : ℕ) (d : Option ℚ) : Solve :=
  { id := i, createdAt := c
    timing := { startTs := 0, endTs := 0, inspectionDurationMs := 0
                rawDurationMs := 0, penalty := .None, finalDurationMs := d } }

def c8Solves : List Solve :=
  [mkSolve "a" 0 (some 12000), mkSolve "b" 1 (some 11000), mkSolve "c" 2 (some 11000)]

/-- C8 witness: history `[12000, 11000, 11000]` — the single PB is 11000,
attributed to the second attempt (index 1). -/
theorem single_pb_strict_earliest_witness :
    (∃ d ∈ extractDurations (sortSolvesChronologically c8Solves), d ≠ none) ∧
    (∃ (b : ℚ) (i : ℕ) (solve : Solve) (pb : PersonalBest),
      (computeSessionStats c8Solves {}).rolling.bestMs = some b ∧
      (∀ q : ℚ, some q ∈ extractDurations (sortSolvesChronologically c8Solves) → b ≤ q) ∧
      (extractDurations (sortSolvesChronologically c8Solves)).get? i = some (some b) ∧
      (∀ j, j < i →
        (extractDurations (sortSolvesChronologically c8Solves)).get? j ≠ some (some b)) ∧
      (sortSolvesChronologically c8Solves).get? i = some solve ∧
      pb ∈ (computeSessionStats c8Solves {}).personalBests ∧
      pb.type = .single ∧ pb.size = none ∧ pb.valueMs = b ∧
      pb.solveIds = [solve.id] ∧ pb.achievedAt = solve.createdAt) ∧
    (computeSessionStats c8Solves {}).rolling.bestMs = some 11000 :=
  ⟨by decide, single_pb_strict_earliest c8Solves {} (by decide), by decide⟩

theorem any_map_fst (m : List (Option ℚ × ℕ)) (p : Option ℚ → Bool) :
    (m.map Prod.fst).any p = m.any (fun c => p c.1) := by
  induction m with
  | nil => rfl
  | cons x xs ih => simp [ih]

theorem entryLeB_refl (a : Option ℚ) : entryLeB a a = true := by
  cases a <;> simp [entryLeB]

theorem entryLeB_none_left {b : Option ℚ} (h : entryLeB none b = true) :
    b = none := by
  cases b with
  | none => rfl
  | some x => simp [entryLeB] at h

/-- Core decomposition of the trimmed window: the window is a permutation of
`lo :: hi :: rest` where `lo` is a minimum, `hi` is a maximum (DNF comparing
as +infinity), `rest` has `size - 2` elements, the result is invalid exactly
when `rest` still holds a DNF, and otherwise the value is the plain average
of `rest`. -/
theorem trimmed_window_decomposition (ds : List (Option ℚ)) (start size : ℕ)
    (h3 : 3 ≤ size) (hlen : start + size ≤ ds.length) :
    ∃ (lo hi : Option ℚ) (rest : List (Option ℚ)),
      ((ds.drop start).take size).Perm (lo :: hi :: rest) ∧
      (∀ v ∈ (ds.drop start).take size,
        entryLeB lo v = true ∧ entryLeB v hi = true) ∧
      rest.length = size - 2 ∧
      (computeTrimmedAverageWindow ds start size).result.isDnf =
        rest.any (fun v => v.isNone) ∧
      (computeTrimmedAverageWindow ds start size).result.valueMs =
        (if rest.any (fun v => v.isNone) then none
         else some (average (rest.map (fun v => v.getD 0)))) := by
  set slice := (ds.drop start).take size with hsl
  have hslice_len : slice.length = size := by
    rw [hsl, List.length_take, List.length_drop]
    omega
  set window := slice.enum.map (fun p => (p.2, start + p.1)) with hw
  have hwf : window.map Prod.fst = slice := by
    rw [hw, List.map_map]
    exact List.enum_map_snd slice
  have hwlen : window.length = size := by
    rw [hw, List.length_map, List.enum_length, hslice_len]
  set sorted := List.insertionSort entryLe window with hs
  have hperm : sorted.Perm window := List.perm_insertionSort _ _
  have hsorted : List.Sorted entryLe sorted := List.sorted_insertionSort _ _
  have hslen : sorted.length = size := by
    rw [hs, List.length_insertionSort, hwlen]
  obtain ⟨a, t, hat⟩ : ∃ a t, sorted = a :: t := by
    cases hsc : sorted with
    | nil => rw [hsc] at hslen; simp at hslen; omega
    | cons a t => exact ⟨a, t, rfl⟩
  have htlen : t.length = size - 1 := by
    have h0 := hslen
    rw [hat] at h0
    simp at h0
    omega
  have htne : t ≠ [] := by
    intro hc
    rw [hc] at htlen
    simp at htlen
    omega
  obtain ⟨m, z, hmz⟩ : ∃ m z, t = m ++ [z] :=
    ⟨t.dropLast, t.getLast htne, (List.dropLast_append_getLast htne).symm⟩
  have hsfull : sorted = (a :: m) ++ [z] := by
    rw [hat, hmz]
    rfl
  have hmlen : m.length = size - 2 := by
    rw [hmz] at htlen
    simp at htlen
    omega
  have hcon : (sorted.drop 1).dropLast = m := by
    rw [hsfull]
    simp
  have hmem_sorted : ∀ v ∈ slice, ∃ p ∈ sorted, p.1 = v := by
    intro v hv
    rw [← hwf] at hv
    obtain ⟨p, hp, hpv⟩ := List.mem_map.mp hv
    exact ⟨p, hperm.mem_iff.mpr hp, hpv⟩
  have hlo : ∀ p ∈ sorted, entryLeB a.1 p.1 = true := by
    intro p hp
    have hsc : List.Sorted entryLe (a :: t) := hat ▸ hsorted
    obtain ⟨hall, _⟩ := List.sorted_cons.mp hsc
    rcases List.mem_cons.mp (hat ▸ hp) with rfl | hpt
    · exact entryLeB_refl _
    · exact hall p hpt
  have hhi : ∀ p ∈ sorted, entryLeB p.1 z.1 = true := by
    intro p hp
    have hpw : List.Pairwise entryLe ((a :: m) ++ [z]) := hsfull ▸ hsorted
    rw [List.pairwise_append] at hpw
    obtain ⟨_, _, hcross⟩ := hpw
    rw [hsfull] at hp
    rcases List.mem_append.mp hp with h1 | h1
    · exact hcross p h1 z (by simp)
    · have hz : p = z := by simpa using h1
      subst hz
      exact entryLeB_refl _
  refine ⟨a.1, z.1, m.map Prod.fst, ?_, ?_, ?_, ?_, ?_⟩
  · have hp1 : slice.Perm (sorted.map Prod.fst) := by
      rw [← hwf]
      exact (hperm.map _).symm
    have hp2 : sorted.map Prod.fst = a.1 :: (m.map Prod.fst ++ [z.1]) := by
      rw [hsfull]
      simp
    rw [hp2] at hp1
    exact hp1.trans ((List.perm_append_singleton _ _).cons _)
  · intro v hv
    obtain ⟨p, hp, hpv⟩ := hmem_sorted v hv
    exact ⟨hpv ▸ hlo p hp, hpv ▸ hhi p hp⟩
  · rw [List.length_map, hmlen]
  · have hisDnf : (computeTrimmedAverageWindow ds start size).result.isDnf =
        ((sorted.drop 1).dropLast).any (fun c => c.1.isNone) := rfl
    rw [hisDnf, hcon, any_map_fst]
  · have hval : (computeTrimmedAverageWindow ds start size).result.valueMs =
        (if ((sorted.drop 1).dropLast).any (fun c => c.1.isNone) then none
         else some (average (((sorted.drop 1).dropLast).map (fun c => c.1.getD 0)))) := rfl
    rw [hval, hcon, any_map_fst, List.map_map]
    rfl

/-- The trimmed window is invalidated exactly when at least two of its values
are DNF: a single DNF sorts to the maximum and is trimmed away. -/
theorem trimmed_isDnf_iff (ds : List (Option ℚ)) (start size : ℕ)
    (h3 : 3 ≤ size) (hlen : start + size ≤ ds.length) :
    ((computeTrimmedAverageWindow ds start size).result.isDnf = true ↔
      2 ≤ ((ds.drop start).take size).countP (fun v => v.isNone)) := by
  obtain ⟨lo, hi, rest, hperm, hminmax, hrlen, hdnf, hval⟩ :=
    trimmed_window_decomposition ds start size h3 hlen
  constructor
  · intro h
    rw [hdnf] at h
    obtain ⟨v, hv, hvn⟩ := List.any_eq_true.mp h
    have hvnone : v = none := by simpa using hvn
    subst hvnone
    have hvslice : (none : Option ℚ) ∈ (ds.drop start).take size :=
      hperm.mem_iff.mpr (by simp [hv])
    have hhin : hi = none := entryLeB_none_left (hminmax none hvslice).2
    rw [hperm.countP_eq]
    have h1 : 0 < rest.countP (fun v => v.isNone) :=
      List.countP_pos.mpr ⟨none, hv, by simp⟩
    rw [List.countP_cons, List.countP_cons]
    simp [hhin]
    omega
  · intro h
    by_contra hne
    have hfalse : rest.any (fun v => v.isNone) = false := by
      rw [hdnf] at hne
      cases hb : rest.any (fun v => v.isNone) with
      | false => rfl
      | true => exact absurd hb hne
    have hrest0 : rest.countP (fun v => v.isNone) = 0 := by
      rw [List.countP_eq_zero]
      intro v hv hpv
      have hT : rest.any (fun v => v.isNone) = true :=
        List.any_eq_true.mpr ⟨v, hv, hpv⟩
      rw [hfalse] at hT
      exact absurd hT (by simp)
    rw [hperm.countP_eq, List.countP_cons, List.countP_cons, hrest0] at h
    have hlon : lo = none := by
      cases lo with
      | none => rfl
      | some x =>
        cases hi <;> simp at h
    have hrne : rest ≠ [] := by
      intro hc
      rw [hc] at hrlen
      simp at hrlen
      omega
    obtain ⟨v, hv⟩ := List.exists_mem_of_ne_nil rest hrne
    have hvslice : v ∈ (ds.drop start).take size :=
      hperm.mem_iff.mpr (by simp [hv])
    have hvn : v = none := by
      have h1 := (hminmax v hvslice).1
      rw [hlon] at h1
      exact entryLeB_none_left h1
    have hpos : 0 < rest.countP (fun v => v.isNone) :=
      List.countP_pos.mpr ⟨v, hv, by simp [hvn]⟩
    omega

/-- C2: the trailing AoN aggregate (N in 5/12/50/100/1000) takes the last N
values, treats DNF as +infinity for comparison only, discards exactly one
minimum and one maximum, and averages the remaining N−2; it is invalid
(isDnf, null value) exactly when at least two window values are DNF (so a
single trimmed-away DNF keeps the average valid), and the infinity sentinel
never reaches `valueMs`. -/
theorem trailing_trimmed_average_spec (ds : List (Option ℚ)) (N : ℕ)
    (hN : N ∈ ([5, 12, 50, 100, 1000] : List ℕ)) (hlen : N ≤ ds.length) :
    ∃ r, latestWindow ds .trimmed N = some r ∧
      (∃ lo hi rest,
        ((ds.drop (ds.length - N)).take N).Perm (lo :: hi :: rest) ∧
        (∀ v ∈ (ds.drop (ds.length - N)).take N,
          entryLeB lo v = true ∧ entryLeB v hi = true) ∧
        rest.length = N - 2 ∧
        r.isDnf = rest.any (fun v => v.isNone) ∧
        r.valueMs = (if rest.any (fun v => v.isNone) then none
                     else some (average (rest.map (fun v => v.getD 0))))) ∧
      (r.isDnf = true ↔
        2 ≤ ((ds.drop (ds.length - N)).take N).countP (fun v => v.isNone)) ∧
      (r.valueMs = none ↔ r.isDnf = true) := by
  have h3 : 3 ≤ N := by
    simp only [List.mem_cons, List.not_mem_nil, or_false] at hN
    rcases hN with rfl | rfl | rfl | rfl | rfl <;> norm_num
  have hstart : (ds.length - N) + N ≤ ds.length := by omega
  have hlw : latestWindow ds .trimmed N =
      some (computeTrimmedAverageWindow ds (ds.length - N) N).result := by
    unfold latestWindow
    rw [if_neg (by omega : ¬ ds.length < N)]
    rfl
  refine ⟨_, hlw, ?_, trimmed_isDnf_iff ds _ N h3 hstart, ?_⟩
  · exact trimmed_window_decomposition ds _ N h3 hstart
  · obtain ⟨lo, hi, rest, _, _, _, hdnf, hval⟩ :=
      trimmed_window_decomposition ds _ N h3 hstart
    rw [hval, hdnf]
    cases rest.any (fun v => v.isNone) <;> simp

def c2OneDnf : List (Option ℚ) :=
  [some 500, some 400, none, some 200, some 100]

def c2TwoDnf : List (Option ℚ) :=
  [some 500, none, none, some 200, some 100]

/-- C2 witness: a 5-window with one DNF (valid, the DNF is trimmed away) and
one with two DNFs (invalid), both through the theorem and evaluated. -/
theorem trailing_trimmed_average_spec_witness :
    ((5 ∈ ([5, 12, 50, 100, 1000] : List ℕ) ∧ 5 ≤ c2OneDnf.length) ∧
      ∃ r, latestWindow c2OneDnf .trimmed 5 = some r ∧
        (∃ lo hi rest,
          ((c2OneDnf.drop (c2OneDnf.length - 5)).take 5).Perm (lo :: hi :: rest) ∧
          (∀ v ∈ (c2OneDnf.drop (c2OneDnf.length - 5)).take 5,
            entryLeB lo v = true ∧ entryLeB v hi = true) ∧
          rest.length = 5 - 2 ∧
          r.isDnf = rest.any (fun v => v.isNone) ∧
          r.valueMs = (if rest.any (fun v => v.isNone) then none
                       else some (average (rest.map (fun v => v.getD 0))))) ∧
        (r.isDnf = true ↔
          2 ≤ ((c2OneDnf.drop (c2OneDnf.length - 5)).take 5).countP
            (fun v => v.isNone)) ∧
        (r.valueMs = none ↔ r.isDnf = true)) ∧
    (∃ r, latestWindow c2OneDnf .trimmed 5 = some r ∧ r.isDnf = false ∧
      r.valueMs ≠ none) ∧
    (∃ r, latestWindow c2TwoDnf .trimmed 5 = some r ∧ r.isDnf = true ∧
      r.valueMs = none) :=
  ⟨⟨⟨by decide, by decide⟩,
    trailing_trimmed_average_spec c2OneDnf 5 (by decide) (by decide)⟩,
   by decide, by decide⟩

/-- C7: a trailing aggregate whose window does not fit in the history is
`null` (never a sentinel number), while a penalty-invalidated window is a
present result with `isDnf = true` and `valueMs = null`; the MoXAo5 aggregate
is `null` exactly below `x + 4` attempts. -/
theorem insufficient_history_vs_invalidated :
    (∀ (ds : List (Option ℚ)) (mode : Mode) (size : ℕ),
      latestWindow ds mode size = none ↔ ds.length < size) ∧
    (∀ ds : List (Option ℚ), 3 ≤ ds.length →
      (∃ d ∈ (ds.drop (ds.length - 3)).take 3, d = none) →
      ∃ r, latestWindow ds .mo3 3 = some r ∧ r.isDnf = true ∧ r.valueMs = none) ∧
    (∀ (ds : List (Option ℚ)) (size : ℕ), 3 ≤ size → size ≤ ds.length →
      2 ≤ ((ds.drop (ds.length - size)).take size).countP (fun v => v.isNone) →
      ∃ r, latestWindow ds .trimmed size = some r ∧ r.isDnf = true ∧
        r.valueMs = none) ∧
    (∀ (ds : List (Option ℚ)) (x : ℕ), x ≠ 0 →
      (computeMoXAo5 (computeAo5Series ds) x = none ↔ ds.length < x + 4)) := by
  refine ⟨?_, ?_, ?_, ?_⟩
  · intro ds mode size
    unfold latestWindow
    split
    · rename_i h
      simpa using h
    · rename_i h
      simp [h]
  · intro ds hlen ⟨d, hd, hdn⟩
    have hlw : latestWindow ds .mo3 3 =
        some (computeMeanOf3Window ds (ds.length - 3)).result := by
      unfold latestWindow
      rw [if_neg (by omega : ¬ ds.length < 3)]
      rfl
    have hany : ((ds.drop (ds.length - 3)).take 3).any (fun v => v.isNone) = true :=
      List.any_eq_true.mpr ⟨d, hd, by simp [hdn]⟩
    have hisDnf : (computeMeanOf3Window ds (ds.length - 3)).result.isDnf =
        ((ds.drop (ds.length - 3)).take 3).any (fun v => v.isNone) := rfl
    have hval : (computeMeanOf3Window ds (ds.length - 3)).result.valueMs =
        (if ((ds.drop (ds.length - 3)).take 3).any (fun v => v.isNone) then none
         else some (average (((ds.drop (ds.length - 3)).take 3).map
           (fun v => v.getD 0)))) := rfl
    exact ⟨_, hlw, by rw [hisDnf, hany], by rw [hval, hany]; rfl⟩
  · intro ds size h3 hlen hcount
    have hstart : (ds.length - size) + size ≤ ds.length := by omega
    have hlw : latestWindow ds .trimmed size =
        some (computeTrimmedAverageWindow ds (ds.length - size) size).result := by
      unfold latestWindow
      rw [if_neg (by omega : ¬ ds.length < size)]
      rfl
    have hisDnf : (computeTrimmedAverageWindow ds (ds.length - size) size).result.isDnf = true :=
      (trimmed_isDnf_iff ds _ size h3 hstart).mpr hcount
    obtain ⟨lo, hi, rest, _, _, _, hdnf, hval⟩ :=
      trimmed_window_decomposition ds (ds.length - size) size h3 hstart
    have hany : rest.any (fun v => v.isNone) = true := by
      rw [← hdnf]
      exact hisDnf
    exact ⟨_, hlw, hisDnf, by rw [hval, hany]; simp⟩
  · intro ds x hx
    have hserieslen : (computeAo5Series ds).length =
        (if ds.length < 5 then 0 else ds.length - 5 + 1) := by
      unfold computeAo5Series
      split <;> simp
    have hmox : ∀ (series : List StatWindowResult),
        (computeMoXAo5 series x = none ↔ (series.length < x ∨ x = 0)) := by
      intro series
      unfold computeMoXAo5
      split
      · rename_i h
        simp [h]
      · rename_i h
        constructor
        · intro hc
          exfalso
          revert hc
          dsimp only
          split <;> simp
        · intro hc
          exact absurd hc h
    rw [hmox, hserieslen]
    split
    · rename_i h
      constructor
      · intro _; omega
      · intro _; left; omega
    · rename_i h
      constructor
      · intro h1
        rcases h1 with h1 | h1 <;> omega
      · intro h1; left; omega

/-- C7 witness: history of length 4 has a null ao5 and mo3 over a window with
a DNF is present-but-invalid, MoXAo5 with x = 1 over 4 attempts is null. -/
theorem insufficient_history_vs_invalidated_witness :
    (latestWindow ([some 1, some 2, some 3, some 4] : List (Option ℚ))
        .trimmed 5 = none ↔
      ([some 1, some 2, some 3, some 4] : List (Option ℚ)).length < 5) ∧
    (∃ r, latestWindow ([some 1, none, some 3] : List (Option ℚ)) .mo3 3 =
        some r ∧ r.isDnf = true ∧ r.valueMs = none) ∧
    (∃ r, latestWindow c2TwoDnf .trimmed 5 = some r ∧ r.isDnf = true ∧
      r.valueMs = none) ∧
    (computeMoXAo5 (computeAo5Series
        ([some 1, some 2, some 3, some 4] : List (Option ℚ))) 1 = none ↔
      ([some 1, some 2, some 3, some 4] : List (Option ℚ)).length < 1 + 4) :=
  ⟨insufficient_history_vs_invalidated.1 _ .trimmed 5,
   insufficient_history_vs_invalidated.2.1 _ (by decide) ⟨none, by decide, rfl⟩,
   insufficient_history_vs_invalidated.2.2.1 c2TwoDnf 5 (by decide) (by decide)
     (by decide),
   insufficient_history_vs_invalidated.2.2.2 _ 1 (by decide)⟩

/-- The sort key a split instance receives in `computePhaseDurations` when the
definition list is already order-sorted. -/
def defIndexOf (definitions : List SplitPhaseDefinition) (phase : String) : ℕ :=
  (mapGet (definitions.enum.map (fun p => (p.2.name, p.1))) phase).getD 0

theorem mapGet_acc_of_not_mem {β : Type} {pairs : List (String × β)} {k : String}
    (h : k ∉ pairs.map Prod.fst) (acc : Option β) :
    pairs.foldl (fun acc p => if p.1 = k then some p.2 else acc) acc = acc := by
  induction pairs generalizing acc with
  | nil => rfl
  | cons q rest ih =>
    simp only [List.map_cons, List.mem_cons, not_or] at h
    obtain ⟨h1, h2⟩ := h
    rw [List.foldl_cons, if_neg (fun hc => h1 hc.symm)]
    exact ih h2 acc

theorem mapGet_eq_none_of_not_mem {β : Type} {pairs : List (String × β)}
    {k : String} (h : k ∉ pairs.map Prod.fst) : mapGet pairs k = none :=
  mapGet_acc_of_not_mem h none

theorem mapGet_nodup {β : Type} {pairs : List (String × β)}
    (hnd : (pairs.map Prod.fst).Nodup) {k : String} {v : β}
    (hmem : (k, v) ∈ pairs) : mapGet pairs k = some v := by
  induction pairs with
  | nil => simp at hmem
  | cons q rest ih =>
    rw [List.map_cons] at hnd
    obtain ⟨hq, hnd2⟩ := List.nodup_cons.mp hnd
    rcases List.mem_cons.mp hmem with rfl | hr
    · unfold mapGet
      rw [List.foldl_cons, if_pos rfl]
      exact mapGet_acc_of_not_mem hq (some v)
    · have hq1 : q.1 ≠ k := by
        intro hc
        apply hq
        rw [hc]
        exact List.mem_map.mpr ⟨(k, v), hr, rfl⟩
      unfold mapGet
      rw [List.foldl_cons, if_neg hq1]
      exact ih hnd2 hr

theorem phaseLoop_keys (eTs : Option ℚ) (l : List SplitInstance) :
    (phaseLoop eTs l).map Prod.fst = l.map (fun p => p.phase) := by
  induction l with
  | nil => rfl
  | cons c rest ih =>
    cases rest with
    | nil => simp [phaseLoop]
    | cons nxt rest2 =>
      have h2 := ih
      simp only [phaseLoop, List.map_cons] at h2 ⊢
      rw [h2]

theorem phaseLoop_mem (total : ℚ) (l : List SplitInstance)
    (hmono : l.Pairwise (fun a b => a.timestampMs ≤ b.timestampMs))
    (hle : ∀ inst ∈ l, inst.timestampMs ≤ total) :
    ∀ i (hi : i < l.length),
      ((l.get ⟨i, hi⟩).phase,
        some ((match l.get? (i + 1) with
               | some nxt => nxt.timestampMs
               | none => total) - (l.get ⟨i, hi⟩).timestampMs)) ∈
        phaseLoop (some total) l := by
  induction l with
  | nil => intro i hi; simp at hi
  | cons c rest ih =>
    intro i hi
    cases i with
    | zero =>
      cases rest with
      | nil =>
        have hct : c.timestampMs ≤ total := hle c (List.mem_cons_self _ _)
        simp [phaseLoop, hct]
      | cons nxt rest2 =>
        have hcn : c.timestampMs ≤ nxt.timestampMs :=
          (List.pairwise_cons.mp hmono).1 nxt (List.mem_cons_self _ _)
        simp [phaseLoop, hcn]
    | succ j =>
      have hmono2 := (List.pairwise_cons.mp hmono).2
      have hle2 : ∀ inst ∈ rest, inst.timestampMs ≤ total :=
        fun inst h => hle inst (List.mem_cons_of_mem _ h)
      have hj : j < rest.length := by simpa using hi
      have hmem := ih hmono2 hle2 j hj
      have hstep : ∃ e, phaseLoop (some total) (c :: rest) =
          e :: phaseLoop (some total) rest := by
        cases rest <;> exact ⟨_, rfl⟩
      obtain ⟨e, he⟩ := hstep
      rw [he]
      apply List.mem_cons_of_mem
      simpa using hmem

/-- C9: for an order-sorted definition list and a capture whose instances are
in definition order with non-decreasing timestamps bounded by the attempt
total duration, the duration of each captured phase is the next captured
timestamp (or the total for the last one) minus its own timestamp, and a
phase absent from the capture reads as a null duration. -/
theorem phase_durations_spec (definitions : List SplitPhaseDefinition)
    (capture : SplitCapture) (total : ℚ)
    (horders : definitions.Pairwise (fun a b => a.order < b.order))
    (hsorted : capture.phases.Pairwise (fun a b =>
      defIndexOf definitions a.phase < defIndexOf definitions b.phase))
    (hts : capture.phases.Pairwise (fun a b => a.timestampMs ≤ b.timestampMs))
    (hlast : ∀ inst ∈ capture.phases, inst.timestampMs ≤ total) :
    (∀ i (hi : i < capture.phases.length),
      flatGet (computePhaseDurations definitions capture (some total))
        (capture.phases.get ⟨i, hi⟩).phase =
      some ((match capture.phases.get? (i + 1) with
             | some nxt => nxt.timestampMs
             | none => total) - (capture.phases.get ⟨i, hi⟩).timestampMs)) ∧
    (∀ name, name ∉ capture.phases.map (fun p => p.phase) →
      flatGet (computePhaseDurations definitions capture (some total)) name = none) := by
  have hdefs_sorted : List.insertionSort
      (fun a b : SplitPhaseDefinition => a.order ≤ b.order) definitions =
      definitions :=
    List.Sorted.insertionSort_eq (horders.imp (fun h => le_of_lt h))
  have hinst : List.insertionSort (fun a b : SplitInstance =>
      defIndexOf definitions a.phase ≤ defIndexOf definitions b.phase)
      capture.phases = capture.phases :=
    List.Sorted.insertionSort_eq (hsorted.imp (fun h => le_of_lt h))
  have hcpd : computePhaseDurations definitions capture (some total) =
      phaseLoop (some total) capture.phases := by
    unfold computePhaseDurations
    simp only [hdefs_sorted]
    exact congrArg (phaseLoop (some total)) hinst
  have hnamesnd : (capture.phases.map (fun p => p.phase)).Nodup := by
    have hne : capture.phases.Pairwise (fun a b => a.phase ≠ b.phase) := by
      refine hsorted.imp ?_
      intro a b h heq
      rw [heq] at h
      exact lt_irrefl _ h
    exact List.pairwise_map.mpr hne
  constructor
  · intro i hi
    rw [hcpd]
    have hmem := phaseLoop_mem total capture.phases hts hlast i hi
    have hkeys := phaseLoop_keys (some total) capture.phases
    have hget := mapGet_nodup (by rw [hkeys]; exact hnamesnd) hmem
    unfold flatGet recGet
    rw [hget]
    rfl
  · intro name hn
    rw [hcpd]
    unfold flatGet recGet
    rw [mapGet_eq_none_of_not_mem (by rw [phaseLoop_keys]; exact hn)]
    rfl

theorem bestWindowStep_of_val_none {ds : List (Option ℚ)} {mode : Mode}
    {size s : ℕ} (h : (computeWindowAt ds s mode size).result.valueMs = none)
    (best : Option WindowComputation) :
    bestWindowStep ds mode size best s = best := by
  unfold bestWindowStep
  rw [h]

theorem bestWindowStep_of_val_some_none {ds : List (Option ℚ)} {mode : Mode}
    {size s : ℕ} {v : ℚ}
    (h : (computeWindowAt ds s mode size).result.valueMs = some v) :
    bestWindowStep ds mode size none s = some (computeWindowAt ds s mode size) := by
  unfold bestWindowStep
  rw [h]

theorem bestWindowStep_of_val_some_some {ds : List (Option ℚ)} {mode : Mode}
    {size s : ℕ} {v bv : ℚ} {b : WindowComputation}
    (h : (computeWindowAt ds s mode size).result.valueMs = some v)
    (hb : b.result.valueMs = some bv) :
    bestWindowStep ds mode size (some b) s =
      (if bv > v then some (computeWindowAt ds s mode size) else some b) := by
  unfold bestWindowStep
  rw [h]
  show (match b.result.valueMs with
        | some bv => if bv > v then some (computeWindowAt ds s mode size) else some b
        | none => some b) = _
  rw [hb]

theorem bestWindow_fold_spec (ds : List (Option ℚ)) (mode : Mode) (size : ℕ) :
    ∀ n : ℕ,
      (∀ comp, (List.range n).foldl (bestWindowStep ds mode size) none = some comp →
        ∃ start, start < n ∧ comp = computeWindowAt ds start mode size ∧
          ∃ v, comp.result.valueMs = some v ∧
            ∀ s, s < n → ∀ v2,
              (computeWindowAt ds s mode size).result.valueMs = some v2 → v ≤ v2) ∧
      ((List.range n).foldl (bestWindowStep ds mode size) none = none →
        ∀ s, s < n → (computeWindowAt ds s mode size).result.valueMs = none) := by
  intro n
  induction n with
  | zero =>
    constructor
    · intro comp h
      simp at h
    · intro _ s hs
      omega
  | succ n ih =>
    obtain ⟨ihSome, ihNone⟩ := ih
    have hrange : (List.range (n + 1)).foldl (bestWindowStep ds mode size) none =
        bestWindowStep ds mode size
          ((List.range n).foldl (bestWindowStep ds mode size) none) n := by
      rw [List.range_succ, List.foldl_append]
      rfl
    constructor
    · intro comp h
      rw [hrange] at h
      cases hv : (computeWindowAt ds n mode size).result.valueMs with
      | none =>
        rw [bestWindowStep_of_val_none hv] at h
        obtain ⟨start, hsn, hceq, v, hcv, hmin⟩ := ihSome comp h
        refine ⟨start, by omega, hceq, v, hcv, ?_⟩
        intro s hs v2 hv2
        rcases Nat.lt_succ_iff_lt_or_eq.mp hs with hs1 | rfl
        · exact hmin s hs1 v2 hv2
        · rw [hv] at hv2
          exact absurd hv2 (by simp)
      | some vn =>
        cases hg : (List.range n).foldl (bestWindowStep ds mode size) none with
        | none =>
          rw [hg, bestWindowStep_of_val_some_none hv] at h
          have hc : comp = computeWindowAt ds n mode size := by
            injection h.symm
          refine ⟨n, by omega, hc, vn, by rw [hc]; exact hv, ?_⟩
          intro s hs v2 hv2
          rcases Nat.lt_succ_iff_lt_or_eq.mp hs with hs1 | rfl
          · have := ihNone hg s hs1
            rw [this] at hv2
            exact absurd hv2 (by simp)
          · rw [hv] at hv2
            injection hv2 with hv2
            exact le_of_eq hv2
        | some b =>
          obtain ⟨start, hsn, hbeq, bv, hbv, hbmin⟩ := ihSome b hg
          rw [hg, bestWindowStep_of_val_some_some hv hbv] at h
          by_cases hgt : bv > vn
          · rw [if_pos hgt] at h
            have hc : comp = computeWindowAt ds n mode size := by
              injection h.symm
            refine ⟨n, by omega, hc, vn, by rw [hc]; exact hv, ?_⟩
            intro s hs v2 hv2
            rcases Nat.lt_succ_iff_lt_or_eq.mp hs with hs1 | rfl
            · have hb2 := hbmin s hs1 v2 hv2
              linarith
            · rw [hv] at hv2
              injection hv2 with hv2
              exact le_of_eq hv2
          · rw [if_neg hgt] at h
            have hc : comp = b := by injection h.symm
            subst hc
            refine ⟨start, by omega, hbeq, bv, hbv, ?_⟩
            intro s hs v2 hv2
            rcases Nat.lt_succ_iff_lt_or_eq.mp hs with hs1 | rfl
            · exact hbmin s hs1 v2 hv2
            · rw [hv] at hv2
              injection hv2 with hv2
              push_neg at hgt
              exact hv2 ▸ hgt
    · intro h s hs
      rw [hrange] at h
      cases hv : (computeWindowAt ds n mode size).result.valueMs with
      | none =>
        rw [bestWindowStep_of_val_none hv] at h
        rcases Nat.lt_succ_iff_lt_or_eq.mp hs with hs1 | rfl
        · exact ihNone h s hs1
        · exact hv
      | some vn =>
        exfalso
        cases hg : (List.range n).foldl (bestWindowStep ds mode size) none with
        | none =>
          rw [hg, bestWindowStep_of_val_some_none hv] at h
          exact absurd h (by simp)
        | some b =>
          obtain ⟨start, hsn, hbeq, bv, hbv, hbmin⟩ := ihSome b hg
          rw [hg, bestWindowStep_of_val_some_some hv hbv] at h
          by_cases hgt : bv > vn
          · rw [if_pos hgt] at h
            exact absurd h (by simp)
          · rw [if_neg hgt] at h
            exact absurd h (by simp)

/-- `bestWindow` returns a valid window evaluated at some start offset whose
value is minimal among all valid offsets. -/
theorem bestWindow_minimal (ds : List (Option ℚ)) (mode : Mode) (size : ℕ) :
    ∀ comp, bestWindow ds mode size = some comp →
      ∃ start, start + size ≤ ds.length ∧
        comp = computeWindowAt ds start mode size ∧
        ∃ v, comp.result.valueMs = some v ∧
          ∀ s, s + size ≤ ds.length → ∀ v2,
            (computeWindowAt ds s mode size).result.valueMs = some v2 → v ≤ v2 := by
  intro comp h
  unfold bestWindow at h
  split at h
  · exact absurd h (by simp)
  · rename_i hlen
    obtain ⟨start, hsn, hceq, v, hv, hmin⟩ :=
      (bestWindow_fold_spec ds mode size (ds.length - size + 1)).1 comp h
    exact ⟨start, by omega, hceq, v, hv,
      fun s hs v2 hv2 => hmin s (by omega) v2 hv2⟩

theorem computeMeanOf3Window_contrib {ds : List (Option ℚ)} {start : ℕ} {v : ℚ}
    (h : (computeMeanOf3Window ds start).result.valueMs = some v) :
    (computeMeanOf3Window ds start).contributingIndices =
      [start, start + 1, start + 2] := by
  by_cases hd : ((ds.drop start).take 3).any (fun v => v.isNone)
  · have hnone : (computeMeanOf3Window ds start).result.valueMs = none := by
      show (if ((ds.drop start).take 3).any (fun v => v.isNone) then none
            else some (average (((ds.drop start).take 3).map (fun v => v.getD 0)))) = none
      rw [if_pos hd]
    rw [hnone] at h
    exact absurd h (by simp)
  · show (if ((ds.drop start).take 3).any (fun v => v.isNone) then []
          else [start, start + 1, start + 2]) = _
    rw [if_neg hd]

theorem trimmed_contrib_facts (ds : List (Option ℚ)) (start size : ℕ)
    (hlen : start + size ≤ ds.length) :
    (computeTrimmedAverageWindow ds start size).contributingIndices.length = size - 2 ∧
    ∀ j ∈ (computeTrimmedAverageWindow ds start size).contributingIndices,
      j < start + size := by
  have hslice_len : ((ds.drop start).take size).length = size := by
    rw [List.length_take, List.length_drop]
    omega
  have hsortedlen : (List.insertionSort entryLe
      (((ds.drop start).take size).enum.map
        (fun p => (p.2, start + p.1)))).length = size := by
    rw [List.length_insertionSort, List.length_map, List.enum_length, hslice_len]
  have hci : (computeTrimmedAverageWindow ds start size).contributingIndices =
      (((List.insertionSort entryLe (((ds.drop start).take size).enum.map
        (fun p => (p.2, start + p.1)))).drop 1).dropLast).map (fun c => c.2) := rfl
  constructor
  · rw [hci, List.length_map, List.length_dropLast, List.length_drop, hsortedlen]
    omega
  · intro j hj
    rw [hci] at hj
    obtain ⟨c, hc, hcj⟩ := List.mem_map.mp hj
    have hc2 : c ∈ List.insertionSort entryLe
        (((ds.drop start).take size).enum.map (fun p => (p.2, start + p.1))) :=
      (List.drop_subset 1 _) (List.dropLast_subset _ hc)
    have hc3 : c ∈ ((ds.drop start).take size).enum.map
        (fun p => (p.2, start + p.1)) :=
      (List.perm_insertionSort entryLe _).subset hc2
    obtain ⟨p, hp, hpc⟩ := List.mem_map.mp hc3
    obtain ⟨hpi, _⟩ :=
      List.getElem?_eq_some.mp (List.mem_enum_iff_getElem?.mp hp)
    rw [← hcj, ← hpc]
    show start + p.1 < start + size
    rw [hslice_len] at hpi
    omega

theorem pbWindowStep_eq {pbs : List PersonalBest} {solves : List Solve}
    {comp : WindowComputation} {type : PBType} {size : ℕ} {v : ℚ}
    {lastIndex : ℕ} {lastSolve : Solve}
    (hv : comp.result.valueMs = some v)
    (hl : comp.contributingIndices.getLast? = some lastIndex)
    (hs : solves.get? lastIndex = some lastSolve) :
    pbWindowStep pbs solves (some comp) type size =
      addPbIfBetter pbs type (some size) v
        (comp.contributingIndices.filterMap
          (fun i => (solves.get? i).map (fun s => s.id)))
        lastSolve.createdAt := by
  unfold pbWindowStep
  simp only [hv, hl, hs]

/-- C3 amended: each best-ever windowed aggregate (mo3 / ao5 / ao12) in
`computeSessionStats` is the window rule evaluated at some valid start offset
of the full history with a value minimal among all valid offsets; its
contributing solve identifiers are exactly the trimmed/averaged subset at the
winning offset, and its achievedAt timestamp is the `createdAt` of the solve
at the LAST position of the contributing index list — which for trimmed
windows is ordered by ascending solve time (so it names the slowest remaining
solve), not chronologically. -/
theorem bestever_window_pb (solvesInput : List Solve) (options : StatsOptions)
    (mode : Mode) (size : ℕ) (type : PBType)
    (hmst : (mode, size, type) ∈
      [(Mode.mo3, 3, PBType.mo3), (Mode.trimmed, 5, PBType.ao5),
       (Mode.trimmed, 12, PBType.ao12)]) :
    ∀ comp, bestWindow (extractDurations (sortSolvesChronologically solvesInput))
        mode size = some comp →
      ∃ start v lastIndex lastSolve,
        start + size ≤ (extractDurations (sortSolvesChronologically solvesInput)).length ∧
        comp = computeWindowAt (extractDurations (sortSolvesChronologically solvesInput))
          start mode size ∧
        comp.result.valueMs = some v ∧
        (∀ s, s + size ≤ (extractDurations (sortSolvesChronologically solvesInput)).length →
          ∀ v2, (computeWindowAt (extractDurations (sortSolvesChronologically solvesInput))
            s mode size).result.valueMs = some v2 → v ≤ v2) ∧
        comp.contributingIndices.getLast? = some lastIndex ∧
        (sortSolvesChronologically solvesInput).get? lastIndex = some lastSolve ∧
        ∃ pb ∈ (computeSessionStats solvesInput options).personalBests,
          pb.type = type ∧ pb.size = some size ∧ pb.valueMs = v ∧
          pb.solveIds = comp.contributingIndices.filterMap
            (fun i => ((sortSolvesChronologically solvesInput).get? i).map
              (fun s => s.id)) ∧
          pb.achievedAt = lastSolve.createdAt := by
  intro comp h
  set solves := sortSolvesChronologically solvesInput with hsolves
  set ds := extractDurations solves with hds
  have hlen_eq : solves.length = ds.length := by
    rw [hds]; simp [extractDurations]
  obtain ⟨start, hstart, hceq, v, hv, hmin⟩ := bestWindow_minimal ds mode size comp h
  have hvW : (computeWindowAt ds start mode size).result.valueMs = some v :=
    hceq ▸ hv
  have hcontrib : comp.contributingIndices ≠ [] ∧
      ∀ j ∈ comp.contributingIndices, j < ds.length := by
    simp only [List.mem_cons, List.not_mem_nil, or_false, Prod.mk.injEq] at hmst
    rcases hmst with ⟨hm, hs, ht⟩ | ⟨hm, hs, ht⟩ | ⟨hm, hs, ht⟩ <;> subst hm <;> subst hs
    · have hv2 : (computeMeanOf3Window ds start).result.valueMs = some v := hvW
      have hcm : comp.contributingIndices = [start, start + 1, start + 2] := by
        rw [hceq]
        exact computeMeanOf3Window_contrib hv2
      rw [hcm]
      refine ⟨by simp, ?_⟩
      intro j hj
      simp at hj
      rcases hj with rfl | rfl | rfl <;> omega
    · obtain ⟨hl1, hl2⟩ := trimmed_contrib_facts ds start 5 hstart
      refine ⟨?_, ?_⟩
      · intro hc
        have h0 : (computeWindowAt ds start Mode.trimmed 5).contributingIndices = [] :=
          hceq ▸ hc
        have h0b : (computeTrimmedAverageWindow ds start 5).contributingIndices = [] := h0
        rw [h0b] at hl1
        simp at hl1
      · intro j hj
        have hj0 : j ∈ (computeWindowAt ds start Mode.trimmed 5).contributingIndices :=
          hceq ▸ hj
        have hj2 : j ∈ (computeTrimmedAverageWindow ds start 5).contributingIndices := hj0
        exact lt_of_lt_of_le (hl2 j hj2) hstart
    · obtain ⟨hl1, hl2⟩ := trimmed_contrib_facts ds start 12 hstart
      refine ⟨?_, ?_⟩
      · intro hc
        have h0 : (computeWindowAt ds start Mode.trimmed 12).contributingIndices = [] :=
          hceq ▸ hc
        have h0b : (computeTrimmedAverageWindow ds start 12).contributingIndices = [] := h0
        rw [h0b] at hl1
        simp at hl1
      · intro j hj
        have hj0 : j ∈ (computeWindowAt ds start Mode.trimmed 12).contributingIndices :=
          hceq ▸ hj
        have hj2 : j ∈ (computeTrimmedAverageWindow ds start 12).contributingIndices := hj0
        exact lt_of_lt_of_le (hl2 j hj2) hstart
  obtain ⟨hcne, hcbound⟩ := hcontrib
  have hlast : comp.contributingIndices.getLast? =
      some (comp.contributingIndices.getLast hcne) :=
    List.getLast?_eq_getLast _ hcne
  have hli_mem : comp.contributingIndices.getLast hcne ∈ comp.contributingIndices :=
    List.getLast_mem hcne
  have hli_lt : comp.contributingIndices.getLast hcne < solves.length := by
    rw [hlen_eq]
    exact hcbound _ hli_mem
  have hsget : solves.get? (comp.contributingIndices.getLast hcne) =
      some (solves.get ⟨comp.contributingIndices.getLast hcne, hli_lt⟩) :=
    List.get?_eq_get hli_lt
  set moX : Option StatWindowResult :=
    (match options.moXAo5 with
     | some x => if 0 < x then computeMoXAo5 (computeAo5Series ds) x else none
     | none => none) with hmoX
  have hpbsEq : (computeSessionStats solvesInput options).personalBests =
      computePersonalBests solves ds options (listMin (ds.filterMap id)) moX := rfl
  have hfresh1 : ∀ pb ∈ pbSingleStep [] solves ds (listMin (ds.filterMap id)),
      pb.type = .single := by
    intro pb hpb
    rcases mem_pbSingleStep hpb with h1 | h1
    · simp at h1
    · exact h1
  refine ⟨start, v, comp.contributingIndices.getLast hcne,
    solves.get ⟨comp.contributingIndices.getLast hcne, hli_lt⟩,
    hstart, hceq, hv, hmin, hlast, hsget, ?_⟩
  rw [hpbsEq]
  unfold computePersonalBests
  simp only [List.mem_cons, List.not_mem_nil, or_false, Prod.mk.injEq] at hmst
  rcases hmst with ⟨hm, hs, ht⟩ | ⟨hm, hs, ht⟩ | ⟨hm, hs, ht⟩ <;>
    subst hm <;> subst hs <;> subst ht
  · -- mo3 best-ever
    have hstep : pbWindowStep (pbSingleStep [] solves ds (listMin (ds.filterMap id)))
        solves (bestWindow ds .mo3 3) .mo3 3 =
        pbSingleStep [] solves ds (listMin (ds.filterMap id)) ++
          [{ type := .mo3, size := some 3, valueMs := v
             solveIds := comp.contributingIndices.filterMap
               (fun i => (solves.get? i).map (fun s => s.id))
             achievedAt := (solves.get
               ⟨comp.contributingIndices.getLast hcne, hli_lt⟩).createdAt }] := by
      rw [h, pbWindowStep_eq hv hlast hsget]
      exact addPbIfBetter_of_fresh
        (fun pb hpb => by rw [hfresh1 pb hpb]; simp)
    refine
      ⟨{ type := .mo3, size := some 3, valueMs := v,
         solveIds := comp.contributingIndices.filterMap
           (fun i => (solves.get? i).map (fun s => s.id)),
         achievedAt := (solves.get
           ⟨comp.contributingIndices.getLast hcne, hli_lt⟩).createdAt },
       ?_, rfl, rfl, rfl, rfl, rfl⟩
    apply mem_pbCustomStep_of_type_ne
    · apply mem_pbWindowStep_of_type_ne
      · apply mem_pbWindowStep_of_type_ne
        · rw [hstep]
          exact List.mem_append_right _ (List.mem_cons_self _ _)
        · simp
      · simp
    · simp
  · -- ao5 best-ever
    have hfresh2 : ∀ pb ∈ pbWindowStep (pbSingleStep [] solves ds
        (listMin (ds.filterMap id))) solves (bestWindow ds .mo3 3) .mo3 3,
        pb.type = .single ∨ pb.type = .mo3 := by
      intro pb hpb
      rcases mem_pbWindowStep hpb with h1 | h1
      · exact Or.inl (hfresh1 pb h1)
      · exact Or.inr h1
    have hstep : pbWindowStep (pbWindowStep (pbSingleStep [] solves ds
        (listMin (ds.filterMap id))) solves (bestWindow ds .mo3 3) .mo3 3)
        solves (bestWindow ds .trimmed 5) .ao5 5 =
        pbWindowStep (pbSingleStep [] solves ds (listMin (ds.filterMap id)))
          solves (bestWindow ds .mo3 3) .mo3 3 ++
          [{ type := .ao5, size := some 5, valueMs := v
             solveIds := comp.contributingIndices.filterMap
               (fun i => (solves.get? i).map (fun s => s.id))
             achievedAt := (solves.get
               ⟨comp.contributingIndices.getLast hcne, hli_lt⟩).createdAt }] := by
      rw [h, pbWindowStep_eq hv hlast hsget]
      refine addPbIfBetter_of_fresh ?_
      intro pb hpb
      rcases hfresh2 pb hpb with h1 | h1 <;> rw [h1] <;> simp
    refine
      ⟨{ type := .ao5, size := some 5, valueMs := v,
         solveIds := comp.contributingIndices.filterMap
           (fun i => (solves.get? i).map (fun s => s.id)),
         achievedAt := (solves.get
           ⟨comp.contributingIndices.getLast hcne, hli_lt⟩).createdAt },
       ?_, rfl, rfl, rfl, rfl, rfl⟩
    apply mem_pbCustomStep_of_type_ne
    · apply mem_pbWindowStep_of_type_ne
      · rw [hstep]
        exact List.mem_append_right _ (List.mem_cons_self _ _)
      · simp
    · simp
  · -- ao12 best-ever
    have hfresh2 : ∀ pb ∈ pbWindowStep (pbSingleStep [] solves ds
        (listMin (ds.filterMap id))) solves (bestWindow ds .mo3 3) .mo3 3,
        pb.type = .single ∨ pb.type = .mo3 := by
      intro pb hpb
      rcases mem_pbWindowStep hpb with h1 | h1
      · exact Or.inl (hfresh1 pb h1)
      · exact Or.inr h1
    have hfresh3 : ∀ pb ∈ pbWindowStep (pbWindowStep (pbSingleStep [] solves ds
        (listMin (ds.filterMap id))) solves (bestWindow ds .mo3 3) .mo3 3)
        solves (bestWindow ds .trimmed 5) .ao5 5,
        pb.type = .single ∨ pb.type = .mo3 ∨ pb.type = .ao5 := by
      intro pb hpb
      rcases mem_pbWindowStep hpb with h1 | h1
      · rcases hfresh2 pb h1 with h2 | h2
        · exact Or.inl h2
        · exact Or.inr (Or.inl h2)
      · exact Or.inr (Or.inr h1)
    have hstep : pbWindowStep (pbWindowStep (pbWindowStep (pbSingleStep []
        solves ds (listMin (ds.filterMap id))) solves (bestWindow ds .mo3 3)
        .mo3 3) solves (bestWindow ds .trimmed 5) .ao5 5)
        solves (bestWindow ds .trimmed 12) .ao12 12 =
        pbWindowStep (pbWindowStep (pbSingleStep [] solves ds
          (listMin (ds.filterMap id))) solves (bestWindow ds .mo3 3) .mo3 3)
          solves (bestWindow ds .trimmed 5) .ao5 5 ++
          [{ type := .ao12, size := some 12, valueMs := v
             solveIds := comp.contributingIndices.filterMap
               (fun i => (solves.get? i).map (fun s => s.id))
             achievedAt := (solves.get
               ⟨comp.contributingIndices.getLast hcne, hli_lt⟩).createdAt }] := by
      rw [h, pbWindowStep_eq hv hlast hsget]
      refine addPbIfBetter_of_fresh ?_
      intro pb hpb
      rcases hfresh3 pb hpb with h1 | h1 | h1 <;> rw [h1] <;> simp
    refine
      ⟨{ type := .ao12, size := some 12, valueMs := v,
         solveIds := comp.contributingIndices.filterMap
           (fun i => (solves.get? i).map (fun s => s.id)),
         achievedAt := (solves.get
           ⟨comp.contributingIndices.getLast hcne, hli_lt⟩).createdAt },
       ?_, rfl, rfl, rfl, rfl, rfl⟩
    apply mem_pbCustomStep_of_type_ne
    · rw [hstep]
      exact List.mem_append_right _ (List.mem_cons_self _ _)
    · simp

def c3Solves : List Solve :=
  [mkSolve "a" 0 (some 500), mkSolve "b" 1 (some 400), mkSolve "c" 2 (some 300),
   mkSolve "d" 3 (some 200), mkSolve "e" 4 (some 100)]

/-- C3 counterexample: on five strictly descending solves the ao5 best-ever
entry has contributing indices (value-sorted) `[3, 2, 1]`, so the stored
`achievedAt` is the `createdAt` of solve "b" (index 1, the slowest remaining
solve) and NOT that of the chronologically last contributing attempt
(solve "d", index 3, `createdAt = 3`). -/
theorem bestever_achievedAt_counterexample :
    ∃ pb ∈ (computeSessionStats c3Solves {}).personalBests,
      pb.type = .ao5 ∧
      pb.solveIds = ["d", "c", "b"] ∧
      pb.achievedAt = 1 ∧
      (∃ comp, bestWindow (extractDurations (sortSolvesChronologically c3Solves))
          .trimmed 5 = some comp ∧ comp.contributingIndices = [3, 2, 1]) ∧
      ((sortSolvesChronologically c3Solves).get? 3).map (fun s => s.createdAt) =
        some 3 ∧
      pb.achievedAt ≠ 3 := by
  have hsort : sortSolvesChronologically c3Solves = c3Solves := by decide
  have hvS : (computeTrimmedAverageWindow (extractDurations c3Solves) 0 5).result.valueMs.isSome = true := by
    decide
  obtain ⟨v, hv⟩ := Option.isSome_iff_exists.mp hvS
  have hvW : (computeWindowAt (extractDurations c3Solves) 0 .trimmed 5).result.valueMs =
      some v := hv
  have hcontrib : (computeTrimmedAverageWindow (extractDurations c3Solves) 0 5).contributingIndices =
      [3, 2, 1] := by decide
  have hbw : bestWindow (extractDurations c3Solves) .trimmed 5 =
      some (computeTrimmedAverageWindow (extractDurations c3Solves) 0 5) := by
    have h1 : ¬ (extractDurations c3Solves).length < 5 := by decide
    unfold bestWindow
    rw [if_neg h1]
    show List.foldl (bestWindowStep (extractDurations c3Solves) .trimmed 5) none [0] = _
    show bestWindowStep (extractDurations c3Solves) .trimmed 5 none 0 = _
    rw [bestWindowStep_of_val_some_none hvW]
    rfl
  have hlast : (computeTrimmedAverageWindow (extractDurations c3Solves) 0 5).contributingIndices.getLast? =
      some 1 := by
    rw [hcontrib]
    rfl
  have hsget : c3Solves.get? 1 = some (mkSolve "b" 1 (some 400)) := rfl
  have hids : (computeTrimmedAverageWindow (extractDurations c3Solves) 0 5).contributingIndices.filterMap
      (fun i => (c3Solves.get? i).map (fun s => s.id)) = ["d", "c", "b"] := by
    rw [hcontrib]
    rfl
  have hpbsEq : (computeSessionStats c3Solves {}).personalBests =
      computePersonalBests c3Solves (extractDurations c3Solves) {}
        (listMin ((extractDurations c3Solves).filterMap id)) none := by
    unfold computeSessionStats statsOnSorted
    rw [hsort]
  have hfresh1 : ∀ pb ∈ pbSingleStep [] c3Solves (extractDurations c3Solves)
      (listMin ((extractDurations c3Solves).filterMap id)), pb.type = .single := by
    intro pb hpb
    rcases mem_pbSingleStep hpb with h1 | h1
    · simp at h1
    · exact h1
  have hfresh2 : ∀ pb ∈ pbWindowStep (pbSingleStep [] c3Solves
      (extractDurations c3Solves) (listMin ((extractDurations c3Solves).filterMap id)))
      c3Solves (bestWindow (extractDurations c3Solves) .mo3 3) .mo3 3,
      pb.type = .single ∨ pb.type = .mo3 := by
    intro pb hpb
    rcases mem_pbWindowStep hpb with h1 | h1
    · exact Or.inl (hfresh1 pb h1)
    · exact Or.inr h1
  have hstep : pbWindowStep (pbWindowStep (pbSingleStep [] c3Solves
      (extractDurations c3Solves) (listMin ((extractDurations c3Solves).filterMap id)))
      c3Solves (bestWindow (extractDurations c3Solves) .mo3 3) .mo3 3)
      c3Solves (bestWindow (extractDurations c3Solves) .trimmed 5) .ao5 5 =
      pbWindowStep (pbSingleStep [] c3Solves (extractDurations c3Solves)
        (listMin ((extractDurations c3Solves).filterMap id)))
        c3Solves (bestWindow (extractDurations c3Solves) .mo3 3) .mo3 3 ++
        [{ type := .ao5, size := some 5, valueMs := v
           solveIds := ["d", "c", "b"], achievedAt := 1 }] := by
    rw [hbw, pbWindowStep_eq hv hlast hsget, hids]
    exact addPbIfBetter_of_fresh
      (fun pb hpb => by rcases hfresh2 pb hpb with h1 | h1 <;> rw [h1] <;> simp)
  have hmem : ({ type := .ao5, size := some 5, valueMs := v
                 solveIds := ["d", "c", "b"], achievedAt := 1 } : PersonalBest) ∈
      (computeSessionStats c3Solves {}).personalBests := by
    rw [hpbsEq]
    unfold computePersonalBests
    apply mem_pbCustomStep_of_type_ne
    · apply mem_pbWindowStep_of_type_ne
      · rw [hstep]
        exact List.mem_append_right _ (List.mem_cons_self _ _)
      · simp
    · simp
  refine ⟨_, hmem, rfl, rfl, rfl, ?_, ?_, ?_⟩
  · rw [hsort]
    exact ⟨_, hbw, hcontrib⟩
  · rw [hsort]
    rfl
  · simp

/-- C3 amended witness: the ao5 case on the five descending solves, where the
best window exists. -/
theorem bestever_window_pb_witness :
    ((Mode.trimmed, 5, PBType.ao5) ∈
      [(Mode.mo3, 3, PBType.mo3), (Mode.trimmed, 5, PBType.ao5),
       (Mode.trimmed, 12, PBType.ao12)]) ∧
    (bestWindow (extractDurations (sortSolvesChronologically c3Solves))
      .trimmed 5).isSome = true ∧
    (∀ comp, bestWindow (extractDurations (sortSolvesChronologically c3Solves))
        .trimmed 5 = some comp →
      ∃ start v lastIndex lastSolve,
        start + 5 ≤ (extractDurations (sortSolvesChronologically c3Solves)).length ∧
        comp = computeWindowAt (extractDurations (sortSolvesChronologically c3Solves))
          start .trimmed 5 ∧
        comp.result.valueMs = some v ∧
        (∀ s, s + 5 ≤ (extractDurations (sortSolvesChronologically c3Solves)).length →
          ∀ v2, (computeWindowAt (extractDurations (sortSolvesChronologically c3Solves))
            s .trimmed 5).result.valueMs = some v2 → v ≤ v2) ∧
        comp.contributingIndices.getLast? = some lastIndex ∧
        (sortSolvesChronologically c3Solves).get? lastIndex = some lastSolve ∧
        ∃ pb ∈ (computeSessionStats c3Solves {}).personalBests,
          pb.type = .ao5 ∧ pb.size = some 5 ∧ pb.valueMs = v ∧
          pb.solveIds = comp.contributingIndices.filterMap
            (fun i => ((sortSolvesChronologically c3Solves).get? i).map
              (fun s => s.id)) ∧
          pb.achievedAt = lastSolve.createdAt) :=
  ⟨by decide, by decide,
   bestever_window_pb c3Solves {} .trimmed 5 .ao5 (by decide)⟩

def c9Defs : List SplitPhaseDefinition := [⟨"A", 1⟩, ⟨"B", 2⟩, ⟨"C", 3⟩]

def c9Capture : SplitCapture := ⟨"s1", [⟨"A", 1000⟩, ⟨"B", 4000⟩]⟩

/-- C9 witness: definitions A(1), B(2), C(3), capture A at 1000 and B at 4000,
total duration 9000; the uncaptured phase C reads as null. -/
theorem phase_durations_spec_witness :
    (c9Defs.Pairwise (fun a b => a.order < b.order) ∧
     c9Capture.phases.Pairwise (fun a b =>
       defIndexOf c9Defs a.phase < defIndexOf c9Defs b.phase) ∧
     c9Capture.phases.Pairwise (fun a b => a.timestampMs ≤ b.timestampMs) ∧
     (∀ inst ∈ c9Capture.phases, inst.timestampMs ≤ (9000 : ℚ))) ∧
    ((∀ i (hi : i < c9Capture.phases.length),
      flatGet (computePhaseDurations c9Defs c9Capture (some 9000))
        (c9Capture.phases.get ⟨i, hi⟩).phase =
      some ((match c9Capture.phases.get? (i + 1) with
             | some nxt => nxt.timestampMs
             | none => (9000 : ℚ)) - (c9Capture.phases.get ⟨i, hi⟩).timestampMs)) ∧
     (∀ name, name ∉ c9Capture.phases.map (fun p => p.phase) →
      flatGet (computePhaseDurations c9Defs c9Capture (some 9000)) name = none)) ∧
    flatGet (computePhaseDurations c9Defs c9Capture (some 9000)) "C" = none :=
  ⟨⟨by decide, by decide, by decide, by decide⟩,
   phase_durations_spec c9Defs c9Capture 9000 (by decide) (by decide) (by decide)
     (by decide),
   by decide⟩
